import Mathlib

/-!
Verification of the deterministic recursive value formatter of the
go-missing-utilities module (the `Format` / `formatValue` family).

The Go source relies on runtime reflection (`reflect.Value`); the shallow
embedding below replaces reflection by an explicit closed datatype `RValue`
whose constructors correspond one-to-one to the reflection kinds the
formatter dispatches on.  Every `format*` function below is a direct
transliteration of the function of the same name in the source file, with
Go's `panic` modelled by the `Except GoPanic` error monad.

Modelling notes (all divergences are forced by the shallow embedding):
* Go `float64` values are embedded as exact rationals (`Rat`); the claims
  verified here depend only on the ordering of float keys, never on the
  decimal digits produced for a float, so `gFloat` below renders a rational
  in an approximate way where the source uses `strconv.FormatFloat`.
* Runtime addresses do not exist in the embedding, so the sorter's panic
  carries the offending key as a structured value rather than the
  interpolated `%v`/`%T` message text.
* `sort.SliceStable` is modelled as a stable insertion sort with an
  effectful comparator (Go's implementation is insertion sort for the
  small slices involved); the first comparison performed is
  `less(keys[1], keys[0])`, exactly as in Go's insertion sort.
-/

namespace Module

/-- The reflection kinds (`reflect.Kind`) that the formatter dispatches on. -/
inductive Kind where
  | invalid
  | bool
  | uint8
  | uint16
  | uint32
  | uint64
  | uint
  | int8
  | int16
  | int64
  | int
  | float32
  | float64
  | complex64
  | complex128
  | int32
  | string
  | func
  | chan
  | array
  | slice
  | map
  | struct
  | pointer
  | interface
  | uintptr
  | unsafePointer
  deriving DecidableEq, Repr, Fintype

/-- The unsigned-integer kinds (`reflect.Uint*` and `reflect.Uintptr`). -/
inductive UKind where
  | uint
  | uint8
  | uint16
  | uint32
  | uint64
  | uintptr
  deriving DecidableEq, Repr

/-- The signed-integer kinds handled by `formatInteger`
(`Int32` is dispatched to `formatRune` instead). -/
inductive IKind where
  | int
  | int8
  | int16
  | int64
  deriving DecidableEq, Repr

/-- The floating-point kinds. -/
inductive FKind where
  | float32
  | float64
  deriving DecidableEq, Repr

/-- The complex kinds. -/
inductive CKind where
  | complex64
  | complex128
  deriving DecidableEq, Repr

def UKind.toKind : UKind → Kind
  | .uint => .uint
  | .uint8 => .uint8
  | .uint16 => .uint16
  | .uint32 => .uint32
  | .uint64 => .uint64
  | .uintptr => .uintptr

def IKind.toKind : IKind → Kind
  | .int => .int
  | .int8 => .int8
  | .int16 => .int16
  | .int64 => .int64

def FKind.toKind : FKind → Kind
  | .float32 => .float32
  | .float64 => .float64

def CKind.toKind : CKind → Kind
  | .complex64 => .complex64
  | .complex128 => .complex128

/-- Channel direction (`reflect.ChanDir`). -/
inductive ChanDir where
  | recvDir
  | sendDir
  | bothDir
  deriving DecidableEq, Repr

/-- The fragment of Go's type structure consumed by `formatType`. -/
inductive GoType where
  /-- A named or intrinsic type whose `Name()` is nonempty
  (the `default` branch of `formatType`). -/
  | named (name : String)
  /-- An interface type: `some n` is a named interface, `none` is the
  universal `interface \x7b\x7d` type rendered as `any`. -/
  | iface (name : Option String)
  /-- A pointer type `*T`. -/
  | ptr (referent : GoType)
  /-- The `unsafe.Pointer` type. -/
  | unsafePtr
  /-- A function type with its parameter and result types. -/
  | fn (ins : List GoType) (outs : List GoType)
  /-- A struct type; an empty name renders as the literal `struct`. -/
  | struct (name : String)
  /-- A channel type with its direction and element type. -/
  | chan (dir : ChanDir) (elem : GoType)
  /-- An array or slice type (both render as `array[elem]`). -/
  | array (elem : GoType)
  /-- A map type with its key and value types. -/
  | map (key : GoType) (value : GoType)

mutual

/-- Transliteration of `formatType` (the Type-Name Formatter).  The `named`
constructor stands for the `default` branch of the Go switch: a named or
intrinsic type rendered through its nonempty `Name()`. -/
def formatType : GoType → String
  | .iface name =>
      -- Interfaces may be named or the "any" interface type; the source
      -- falls back from an empty Name() to String() and rewrites the
      -- universal interface to "any".
      match name with
      | some n => n
      | none => "any"
  | .ptr referencedType =>
      -- Format the pointer type recursively.
      "*" ++ formatType referencedType
  | .unsafePtr =>
      -- Mark it as unsafe.
      "<unsafe>"
  | .fn ins outs =>
      -- Format the function signature type recursively.
      "func(" ++ formatTypeSeq ins ++ ")" ++
        (if outs.length > 0 then " (" ++ formatTypeSeq outs ++ ")" else "")
  | .struct name =>
      -- Format the structure type, falling back to the literal "struct".
      if name.length = 0 then "struct" else name
  | .chan _ elementType =>
      -- Format the channel type recursively (direction is not rendered).
      "chan " ++ formatType elementType
  | .array elementType =>
      -- Format the array type recursively.
      "array[" ++ formatType elementType ++ "]"
  | .map keyType valueType =>
      -- Format the map type recursively.
      "map[" ++ formatType keyType ++ ", " ++ formatType valueType ++ "]"
  | .named name => name

/-- The comma-separated rendering of a parameter or result type list,
mirroring the `index < count-1` separator logic of the source loops. -/
def formatTypeSeq : List GoType → String
  | [] => ""
  | [t] => formatType t
  | t :: rest => formatType t ++ ", " ++ formatTypeSeq rest

end

mutual

/-- The closed universe of runtime values the formatter can receive.  Each
constructor corresponds to one `reflect.Kind` (plus the invalid value),
carrying exactly the observations the source extracts through reflection. -/
inductive RValue where
  /-- The zero `reflect.Value` (`IsValid()` is false). -/
  | invalid
  /-- A value of kind `Bool`; `Bool()` returns the payload. -/
  | boolean (b : Bool)
  /-- A value of one of the unsigned kinds; `Uint()` returns the payload. -/
  | unsigned (k : UKind) (v : Nat)
  /-- A value of kind `Int`, `Int8`, `Int16` or `Int64`; `Int()` returns
  the payload. -/
  | integer (k : IKind) (v : Int)
  /-- A value of kind `Int32` (a rune); `Int()` returns the code point. -/
  | rune (v : Int)
  /-- A value of kind `Float32` or `Float64`; the payload is the exact
  rational carried by `Float()` (see the modelling notes). -/
  | float (k : FKind) (v : Rat)
  /-- A value of kind `Complex64` or `Complex128`, as a pair of exact
  rationals. -/
  | complex (k : CKind) (re : Rat) (im : Rat)
  /-- A value of kind `String`. -/
  | string (s : String)
  /-- A value of kind `Func`: the best-effort runtime name reported by
  `runtime.FuncForPC` (empty when undefined) and the function type. -/
  | func (name : String) (t : GoType)
  /-- A value of kind `Chan`: direction and element type (from its type)
  plus `Cap()` and `Len()`. -/
  | chan (dir : ChanDir) (elem : GoType) (capacity : Nat) (size : Nat)
  /-- A value of kind `Array` or `Slice` (`slice` distinguishes the two
  kinds); `Type()` is `t`, `Len()`/`Index(i)` observe `elems`. -/
  | array (t : GoType) (slice : Bool) (elems : List RValue)
  /-- A value of kind `Map`: `MapKeys()` returns the keys of `pairs` in
  storage iteration order, `MapIndex` looks a key up.  The constructor is
  wider than Go, which restricts map key types to comparable ones (no
  func, slice or map keys); universally quantified theorems subsume that
  subset, and every concrete input below keys its maps with kinds that
  are legal Go key types. -/
  | map (t : GoType) (pairs : List (RValue × RValue))
  /-- A value of kind `Struct`: the visible fields as
  (name, exported, value) triples. -/
  | struct (t : GoType) (fields : List (String × Bool × RValue))
  /-- A value of kind `Pointer`: its type, its method set (in the sorted
  order `reflect.Type.Method` enumerates) and the referent (`Elem()`). -/
  | pointer (t : GoType) (methods : List GoMethod) (elem : RValue)
  /-- A value of kind `Interface`; `Elem()` returns the dynamic value
  (`invalid` for a nil interface). -/
  | iface (inner : RValue)
  /-- A value of kind `UnsafePointer`. -/
  | unsafePointer

/-- A method exposed by a pointer value, as seen through reflection: its
name, the arity of its signature (`Type().NumIn()` / `NumOut()`), its
first result type (`Type().Out(0)`), and the value produced by
`Call([])`. -/
inductive GoMethod where
  | mk (name : String) (numIn : Nat) (numOut : Nat) (outType : GoType)
      (result : RValue)

end

def GoMethod.name : GoMethod → String
  | .mk n _ _ _ _ => n

def GoMethod.numIn : GoMethod → Nat
  | .mk _ i _ _ _ => i

def GoMethod.numOut : GoMethod → Nat
  | .mk _ _ o _ _ => o

def GoMethod.outType : GoMethod → GoType
  | .mk _ _ _ t _ => t

def GoMethod.result : GoMethod → RValue
  | .mk _ _ _ _ r => r

/-- `Kind()` of an embedded value. -/
def RValue.kind : RValue → Kind
  | .invalid => .invalid
  | .boolean _ => .bool
  | .unsigned k _ => k.toKind
  | .integer k _ => k.toKind
  | .rune _ => .int32
  | .float k _ => k.toKind
  | .complex k _ _ => k.toKind
  | .string _ => .string
  | .func _ _ => .func
  | .chan _ _ _ _ => .chan
  | .array _ slice _ => if slice then .slice else .array
  | .map _ _ => .map
  | .struct _ _ => .struct
  | .pointer _ _ _ => .pointer
  | .iface _ => .interface
  | .unsafePointer => .unsafePointer

mutual

/-- Structural equality of embedded Go types (Go's `==` on `reflect.Type`
compares type identity; in the embedding two types are identical exactly
when they are structurally equal). -/
def beqType : GoType → GoType → Bool
  | .named a, .named b => a == b
  | .iface a, .iface b => a == b
  | .ptr a, .ptr b => beqType a b
  | .unsafePtr, .unsafePtr => true
  | .fn i1 o1, .fn i2 o2 => beqTypeList i1 i2 && beqTypeList o1 o2
  | .struct a, .struct b => a == b
  | .chan d1 e1, .chan d2 e2 => d1 == d2 && beqType e1 e2
  | .array a, .array b => beqType a b
  | .map k1 v1, .map k2 v2 => beqType k1 k2 && beqType v1 v2
  | _, _ => false

/-- Pointwise equality of type lists. -/
def beqTypeList : List GoType → List GoType → Bool
  | [], [] => true
  | a :: as_, b :: bs => beqType a b && beqTypeList as_ bs
  | _, _ => false

end

mutual

/-- Go's intrinsic equality on values usable as map keys, restricted to the
observations carried by the embedding (`reflect.Value.MapIndex` compares
keys with this equality). -/
def beqRV : RValue → RValue → Bool
  | .invalid, .invalid => true
  | .boolean a, .boolean b => a == b
  | .unsigned k1 v1, .unsigned k2 v2 => k1 == k2 && v1 == v2
  | .integer k1 v1, .integer k2 v2 => k1 == k2 && v1 == v2
  | .rune a, .rune b => a == b
  | .float k1 a, .float k2 b => k1 == k2 && a == b
  | .complex k1 r1 i1, .complex k2 r2 i2 => k1 == k2 && r1 == r2 && i1 == i2
  | .string a, .string b => a == b
  | .func n1 t1, .func n2 t2 => n1 == n2 && beqType t1 t2
  | .chan d1 e1 c1 s1, .chan d2 e2 c2 s2 =>
      d1 == d2 && beqType e1 e2 && c1 == c2 && s1 == s2
  | .array t1 s1 e1, .array t2 s2 e2 =>
      beqType t1 t2 && s1 == s2 && beqRVList e1 e2
  | .map t1 p1, .map t2 p2 => beqType t1 t2 && beqRVPairs p1 p2
  | .struct t1 f1, .struct t2 f2 => beqType t1 t2 && beqRVFields f1 f2
  | .pointer t1 m1 e1, .pointer t2 m2 e2 =>
      beqType t1 t2 && beqMethods m1 m2 && beqRV e1 e2
  | .iface a, .iface b => beqRV a b
  | .unsafePointer, .unsafePointer => true
  | _, _ => false
termination_by a _ => sizeOf a
decreasing_by all_goals (simp_wf <;> omega)

def beqRVList : List RValue → List RValue → Bool
  | [], [] => true
  | a :: as_, b :: bs => beqRV a b && beqRVList as_ bs
  | _, _ => false
termination_by l _ => sizeOf l
decreasing_by all_goals (simp_wf <;> omega)

def beqRVPairs : List (RValue × RValue) → List (RValue × RValue) → Bool
  | [], [] => true
  | (k1, v1) :: as_, (k2, v2) :: bs =>
      beqRV k1 k2 && beqRV v1 v2 && beqRVPairs as_ bs
  | _, _ => false
termination_by l _ => sizeOf l
decreasing_by all_goals (simp_wf <;> omega)

def beqRVFields :
    List (String × Bool × RValue) → List (String × Bool × RValue) → Bool
  | [], [] => true
  | (n1, e1, v1) :: as_, (n2, e2, v2) :: bs =>
      n1 == n2 && e1 == e2 && beqRV v1 v2 && beqRVFields as_ bs
  | _, _ => false
termination_by l _ => sizeOf l
decreasing_by all_goals (simp_wf <;> omega)

def beqMethods : List GoMethod → List GoMethod → Bool
  | [], [] => true
  | .mk n1 i1 o1 t1 r1 :: as_, .mk n2 i2 o2 t2 r2 :: bs =>
      n1 == n2 && i1 == i2 && o1 == o2 && beqType t1 t2 && beqRV r1 r2 &&
        beqMethods as_ bs
  | _, _ => false
termination_by l _ => sizeOf l
decreasing_by all_goals (simp_wf <;> omega)

end

/-- The fatal failures (`panic`) the formatter can raise.  Runtime
addresses do not exist in the embedding, so each panic carries the
offending datum rather than the `fmt.Sprintf` message text interpolating
`%v`/`%T` of that datum. -/
inductive GoPanic where
  /-- `"Attempted to compare an unknown key type: %v of type %T"`, raised
  by the key sorter inside `formatMap`; carries the offending key. -/
  | sorterUnknownKey (key : RValue)
  /-- `"Attempted to format an unsupported type: %v"`, raised by the
  `default` branch of the `formatValue` dispatch; carries the kind. -/
  | unsupportedKind (k : Kind)
  /-- The reflection panic raised by `Call` on the zero `reflect.Value`
  returned by `MethodByName` for an absent method. -/
  | invalidMethodCall (name : String)
  /-- The reflection panic raised by `Len`/`Index` on a value that is not
  a sequence. -/
  | lenOfNonSequence

/-- `MethodByName` over a reflected method set; `isSome` of the result is
`IsValid()` of the `reflect.Value` Go obtains. -/
def methodByName (methods : List GoMethod) (name : String) : Option GoMethod :=
  methods.find? (fun m => m.name == name)

/-- `MethodByName` on a value.  In the embedding only pointer values carry
method sets (the formatter only probes methods of pointers and of the
association objects produced by an `AsArray` accessor, which are
themselves pointers to class instances). -/
def RValue.methodByName : RValue → String → Option GoMethod
  | .pointer _ methods _, name => Module.methodByName methods name
  | _, _ => none

/-- `reflect.Value.MapIndex`: look a key up among the stored pairs; the
zero (invalid) value results when the key is absent. -/
def mapIndex (pairs : List (RValue × RValue)) (key : RValue) : RValue :=
  match pairs.find? (fun p => beqRV p.1 key) with
  | some p => p.2
  | none => .invalid

/-- The `typeMap` priority table, assigning each key kind its sort rank.
(`Kind.invalid` is absent from the Go map literal; a Go map lookup of an
absent key yields the zero value 0, and the comparator never looks an
invalid kind up because Go map keys are always valid values.) -/
def typeMap : Kind → Nat
  | .bool => 0
  | .uint8 => 1
  | .uint16 => 2
  | .uint32 => 3
  | .uint64 => 4
  | .uint => 5
  | .int8 => 6
  | .int16 => 7
  | .int64 => 8
  | .int => 9
  | .float32 => 10
  | .float64 => 11
  | .complex64 => 12
  | .complex128 => 13
  | .int32 => 14
  | .string => 15
  | .func => 16
  | .chan => 17
  | .array => 18
  | .slice => 19
  | .map => 20
  | .struct => 21
  | .pointer => 22
  | .interface => 23
  | .uintptr => 24
  | .unsafePointer => 25
  | .invalid => 0

/-- `reflect.Value.Bool()` (only consulted on `Bool`-kinded values). -/
def RValue.boolProj : RValue → Bool
  | .boolean b => b
  | _ => false

/-- `reflect.Value.Int()` (only consulted on signed-integer-kinded values,
`Int32`/rune included). -/
def RValue.intProj : RValue → Int
  | .integer _ i => i
  | .rune i => i
  | _ => 0

/-- `reflect.Value.Uint()` (only consulted on unsigned-kinded values). -/
def RValue.uintProj : RValue → Nat
  | .unsigned _ n => n
  | _ => 0

/-- `reflect.Value.Float()` (only consulted on float-kinded values). -/
def RValue.floatProj : RValue → Rat
  | .float _ q => q
  | _ => 0

/-- The squared magnitude of a complex-kinded value.  The source compares
`cmplx.Abs` results; over exact rationals `Abs x < Abs y` holds exactly
when the squared magnitudes compare the same way, so the comparator below
uses the square to stay inside `Rat`. -/
def RValue.ampSq : RValue → Rat
  | .complex _ re im => re * re + im * im
  | _ => 0

/-- `reflect.Value.String()` (only consulted on `String`-kinded values). -/
def RValue.strProj : RValue → String
  | .string s => s
  | _ => ""

/-- `reflect.Value.Elem()` on an interface or pointer value (the only
kinds the formatter dereferences). -/
def RValue.elemOf : RValue → RValue
  | .iface inner => inner
  | .pointer _ _ e => e
  | _ => .invalid

/-- The comparator's wrapper conversion:
`if key.Kind() == ref.Interface { key = key.Elem() }`. -/
def unwrapKey (key : RValue) : RValue :=
  if key.kind = .interface then key.elemOf else key

/-- The effectful comparator passed to `sort.SliceStable` inside
`formatMap`, comparing two keys (the `func(i, j int) bool` closure body;
`panic` is the error case). -/
def keyLess (x y : RValue) : Except GoPanic Bool :=
  -- Convert wrapper types into their element types.
  let firstKey := unwrapKey x
  let secondKey := unwrapKey y
  -- Sort by key type if the keys have different types.
  if firstKey.kind ≠ secondKey.kind then
    .ok (decide (typeMap firstKey.kind < typeMap secondKey.kind))
  else
    -- Sort by key value if they have the same type.
    match firstKey.kind with
    | .bool => .ok (!firstKey.boolProj && secondKey.boolProj)
    | .int | .int8 | .int16 | .int32 | .int64 =>
        .ok (decide (firstKey.intProj < secondKey.intProj))
    | .uint | .uint8 | .uint16 | .uint32 | .uint64 =>
        .ok (decide (firstKey.uintProj < secondKey.uintProj))
    | .float32 | .float64 =>
        .ok (decide (firstKey.floatProj < secondKey.floatProj))
    | .complex64 | .complex128 =>
        .ok (decide (firstKey.ampSq < secondKey.ampSq))
    | .string => .ok (decide (firstKey.strProj < secondKey.strProj))
    | _ => .error (.sorterUnknownKey firstKey)

/-- The value-comparison switch of the comparator, as a pure function of
the shared kind (`false` in the kinds where the source panics). -/
def valueLess (k : Kind) (a b : RValue) : Bool :=
  match k with
  | .bool => !a.boolProj && b.boolProj
  | .int | .int8 | .int16 | .int32 | .int64 => decide (a.intProj < b.intProj)
  | .uint | .uint8 | .uint16 | .uint32 | .uint64 =>
      decide (a.uintProj < b.uintProj)
  | .float32 | .float64 => decide (a.floatProj < b.floatProj)
  | .complex64 | .complex128 => decide (a.ampSq < b.ampSq)
  | .string => decide (a.strProj < b.strProj)
  | _ => false

/-- The pure reading of `keyLess`: total, agreeing with `keyLess` whenever
the comparison does not panic (see `keyLess_eq_ok`). -/
def keyLessB (x y : RValue) : Bool :=
  let firstKey := unwrapKey x
  let secondKey := unwrapKey y
  if firstKey.kind ≠ secondKey.kind then
    decide (typeMap firstKey.kind < typeMap secondKey.kind)
  else
    valueLess firstKey.kind firstKey secondKey

/-- The kinds the comparator's value switch can order (the case labels of
the `switch firstKey.Kind()`; note `Uintptr` is absent although it is an
unsigned kind elsewhere in the formatter). -/
def orderableKind : Kind → Bool
  | .bool => true
  | .int | .int8 | .int16 | .int32 | .int64 => true
  | .uint | .uint8 | .uint16 | .uint32 | .uint64 => true
  | .float32 | .float64 => true
  | .complex64 | .complex128 => true
  | .string => true
  | _ => false

/-- One insertion step of the stable insertion sort modelling
`sort.SliceStable`: a later element `y` is placed before the first already
sorted element `x` with `less y x` (and therefore after every element it
ties with, which is exactly stability for encounter order). -/
def orderedInsertM {α : Type} (less : α → α → Except GoPanic Bool) (y : α) :
    List α → Except GoPanic (List α)
  | [] => .ok [y]
  | x :: xs => do
      if ← less y x then
        .ok (y :: x :: xs)
      else
        let rest ← orderedInsertM less y xs
        .ok (x :: rest)

/-- Insert the remaining elements, in encounter order, into the sorted
prefix (the outer loop of insertion sort). -/
def insertAllM {α : Type} (less : α → α → Except GoPanic Bool) :
    List α → List α → Except GoPanic (List α)
  | [], sorted => .ok sorted
  | x :: xs, sorted => do
      let sorted2 ← orderedInsertM less x sorted
      insertAllM less xs sorted2

/-- The model of `sort.SliceStable` with an effectful (panicking)
comparator.  For the slice sizes the formatter sorts, Go's `SliceStable`
is insertion sort; in particular the first comparison performed on a
slice with at least two elements is `less(keys[1], keys[0])`. -/
def sliceStable {α : Type} (less : α → α → Except GoPanic Bool)
    (xs : List α) : Except GoPanic (List α) :=
  insertAllM less xs []

/-- Pure counterpart of `orderedInsertM`. -/
def orderedInsertP {α : Type} (lt : α → α → Bool) (y : α) :
    List α → List α
  | [] => [y]
  | x :: xs => if lt y x then y :: x :: xs else x :: orderedInsertP lt y xs

/-- Pure counterpart of `insertAllM`. -/
def insertAllP {α : Type} (lt : α → α → Bool) : List α → List α → List α
  | [], sorted => sorted
  | x :: xs, sorted => insertAllP lt xs (orderedInsertP lt x sorted)

/-- Pure counterpart of `sliceStable`: the list the sort produces when no
comparison panics. -/
def stableSortP {α : Type} (lt : α → α → Bool) (xs : List α) : List α :=
  insertAllP lt xs []

/-- `maximumDepth` — this breaks any infinite loops. -/
def maximumDepth : Nat := 8

/-- `formatNewline`: a newline followed by four spaces of indentation per
nesting level. -/
def formatNewline (depth : Nat) : String :=
  "\n" ++ String.join (List.replicate depth "    ")

/-- A single lowercase hexadecimal digit. -/
def hexDigit (n : Nat) : Char :=
  if n < 10 then Char.ofNat ('0'.toNat + n) else Char.ofNat ('a'.toNat + (n - 10))

/-- The digits of `strconv.FormatUint(v, 16)`: minimal-length lowercase
hexadecimal, most significant digit first. -/
def hexDigits (n : Nat) : List Char :=
  if n < 16 then [hexDigit n]
  else hexDigits (n / 16) ++ [hexDigit (n % 16)]
termination_by n
decreasing_by exact Nat.div_lt_self (by omega) (by omega)

/-- `strings.HasPrefix`, stated over character lists so that it reduces
during proof evaluation (Lean's own `String.startsWith` is opaque to the
kernel). -/
def goStringStartsWith (s pre : String) : Bool :=
  pre.toList.isPrefixOf s.toList

/-- `formatBoolean` (via `strconv.FormatBool`). -/
def formatBoolean (value : Bool) (_depth : Nat) : String :=
  if value then "true" else "false"

/-- `formatUnsigned`: `"0x" + strconv.FormatUint(value, 16)`. -/
def formatUnsigned (value : Nat) (_depth : Nat) : String :=
  "0x" ++ String.mk (hexDigits value)

/-- `formatInteger`: `strconv.FormatInt(value, 10)`. -/
def formatInteger (value : Int) (_depth : Nat) : String :=
  toString value

/-- Stand-in for `strconv.FormatFloat(value, 'G', -1, 64)` over exact
rationals: exact for integral values (where `'G'` prints the plain digit
string); non-integral rationals render as `num/den`, which no claim in
this development depends on (float keys are only ever compared, and the
concrete inputs of the claims use integral floats). -/
def gFloat (q : Rat) : String :=
  if q.den = 1 then toString q.num else toString q

/-- `formatFloat`: the `'G'` rendering, with `".0"` appended when the
result contains neither a decimal point nor an exponent marker. -/
def formatFloat (value : Rat) (_depth : Nat) : String :=
  let result := gFloat value
  if ¬(result.contains '.') ∧ ¬(result.contains 'E') then result ++ ".0"
  else result

/-- `formatComplex`: `strconv.FormatComplex(value, 'G', -1, 64)`, which
renders `(re+imi)` with an explicit sign on the imaginary part. -/
def formatComplex (re im : Rat) (_depth : Nat) : String :=
  "(" ++ gFloat re ++ (if 0 ≤ im then "+" ++ gFloat im else gFloat im) ++ "i)"

/-- The escaping core of `strconv.QuoteRune` / `strconv.Quote`,
specialised to the quote character in use.  Printability outside ASCII is
approximated: runes at or above `0x80` are emitted literally (Go escapes
the non-printing ones with `\u`/`\U`; no claim exercises those). -/
def escapedRune (quote : Char) (r : Char) : String :=
  if r = quote ∨ r = '\\' then "\\" ++ String.singleton r
  else if r.toNat = 7 then "\\a"
  else if r.toNat = 8 then "\\b"
  else if r.toNat = 12 then "\\f"
  else if r.toNat = 10 then "\\n"
  else if r.toNat = 13 then "\\r"
  else if r.toNat = 9 then "\\t"
  else if r.toNat = 11 then "\\v"
  else if 0x20 ≤ r.toNat ∧ r.toNat < 0x7f then String.singleton r
  else if r.toNat < 0x20 ∨ r.toNat = 0x7f then
    "\\x" ++ String.mk [hexDigit (r.toNat / 16), hexDigit (r.toNat % 16)]
  else String.singleton r

/-- `rune(v)` for the code point carried by an `Int32` value, mapping
values outside the valid rune range to `utf8.RuneError` as
`strconv.QuoteRune` does. -/
def runeOf (i : Int) : Char :=
  if 0 ≤ i ∧ (i < 0xd800 ∨ (0xe000 ≤ i ∧ i < 0x110000)) then
    Char.ofNat i.toNat
  else '�'

/-- `formatRune`: `strconv.QuoteRune(rune(reflected.Int()))`. -/
def formatRune (value : Int) (_depth : Nat) : String :=
  let r := runeOf value
  "'" ++ escapedRune '\'' r ++ "'"

/-- `formatString`: `strconv.Quote(reflected.String())`. -/
def formatString (value : String) (_depth : Nat) : String :=
  "\"" ++ String.join (value.toList.map (escapedRune '"')) ++ "\""

/-- `formatFunction`: the signature type, prefixed by the best-effort
runtime function name when one is defined (`isDefined` of a string is
nonemptiness). -/
def formatFunction (name : String) (t : GoType) (_depth : Nat) : String :=
  let functionSignature := formatType t
  if name ≠ "" then
    let sections := name.splitOn "."
    let functionName := sections.getLastD ""
    let trimmed :=
      if goStringStartsWith functionSignature "func" then
        functionSignature.drop 4
      else functionSignature
    "func " ++ functionName ++ trimmed
  else functionSignature

/-- `formatChannel`: a record of direction, capacity and queued count,
annotated with the channel type; the source increments `depth` for the
three body lines and restores it for the closing bracket. -/
def formatChannel (dir : ChanDir) (elem : GoType) (capacity size : Nat)
    (depth : Nat) : String :=
  let direction :=
    match dir with
    | .recvDir => "Receive"
    | .sendDir => "Send"
    | .bothDir => "Both"
  "[" ++ formatNewline (depth + 1) ++ "Direction: " ++ direction ++
    formatNewline (depth + 1) ++ "Capacity: " ++ toString capacity ++
    formatNewline (depth + 1) ++ "Size: " ++ toString size ++
    formatNewline depth ++ "](" ++ formatType (.chan dir elem) ++ ")"

/-- `formatUnsafe` in the source: the fixed marker for a raw pointer. -/
def formatUnsafeValue (_depth : Nat) : String :=
  "<unsafe>"

/-- Support fact for the termination argument of the renderer. -/
theorem sizeOf_result_lt (m : GoMethod) : sizeOf m.result < sizeOf m := by
  cases m
  simp [GoMethod.result]

/-- A method found by name belongs to the method set. -/
theorem methodByName_mem {ms : List GoMethod} {n : String} {m : GoMethod}
    (h : methodByName ms n = some m) : m ∈ ms :=
  List.mem_of_find?_eq_some h

/-- Support fact for the termination argument of the renderer. -/
theorem sizeOf_methodResult_lt {v : RValue} {n : String} {m : GoMethod}
    (h : v.methodByName n = some m) : sizeOf m.result < sizeOf v := by
  cases v <;> simp [RValue.methodByName] at h
  next t methods elem =>
    have h1 := List.sizeOf_lt_of_mem (methodByName_mem h)
    have h2 := sizeOf_result_lt m
    simp
    omega

/-- Support fact for the termination argument of the renderer. -/
theorem sizeOf_key_lt {pairs : List (RValue × RValue)} {k : RValue}
    (h : k ∈ pairs.map Prod.fst) : sizeOf k < sizeOf pairs := by
  obtain ⟨p, hp, rfl⟩ := List.mem_map.mp h
  have := List.sizeOf_lt_of_mem hp
  cases p
  simp at *
  omega

/-- Support fact for the termination argument of the renderer. -/
theorem sizeOf_mapIndex_lt {pairs : List (RValue × RValue)} (k : RValue)
    (hne : pairs ≠ []) : sizeOf (mapIndex pairs k) < sizeOf pairs := by
  rcases hfind : pairs.find? (fun p => beqRV p.1 k) with _ | p
  · have h1 : 1 < sizeOf pairs := by
      cases pairs with
      | nil => exact absurd rfl hne
      | cons p ps =>
          cases p
          simp
          omega
    simpa [mapIndex, hfind] using h1
  · have := List.sizeOf_lt_of_mem (List.mem_of_find?_eq_some hfind)
    cases p
    simp only [mapIndex, hfind]
    simp at *
    omega

/-- Support fact for the termination argument of the renderer. -/
theorem sizeOf_rvalue_pos (v : RValue) : 0 < sizeOf v := by
  cases v <;> simp_arith

/-- Support fact for the termination argument of the renderer. -/
theorem sizeOf_list_pos {α : Type} [SizeOf α] (l : List α) : 0 < sizeOf l := by
  cases l <;> simp_arith

mutual

/-- `formatValue`: the renderer's dispatch on `reflected.Kind()`.  The
initial `IsValid()` test is the `invalid` case; the Go `switch` lists
every remaining kind explicitly, so its `default` branch (which panics
with `GoPanic.unsupportedKind`) has no corresponding arm here: the match
below covers the whole closed universe of kinds. -/
def formatValue : RValue → Nat → Except GoPanic String
  | .invalid, _ => .ok "<nil>"
  | .boolean b, depth => .ok (formatBoolean b depth)
  | .unsigned _ v, depth => .ok (formatUnsigned v depth)
  | .integer _ v, depth => .ok (formatInteger v depth)
  | .float _ v, depth => .ok (formatFloat v depth)
  | .complex _ re im, depth => .ok (formatComplex re im depth)
  | .rune v, depth => .ok (formatRune v depth)
  | .string s, depth => .ok (formatString s depth)
  | .func name t, depth => .ok (formatFunction name t depth)
  | .chan dir elem c s, depth => .ok (formatChannel dir elem c s depth)
  | .array t sl elems, depth => formatArray t sl elems depth
  | .map t pairs, depth => formatMap t pairs depth
  | .struct t fields, depth => formatStructure t fields depth
  | .pointer t methods elem, depth => formatPointer t methods elem depth
  | .iface inner, depth => formatInterface inner depth
  | .unsafePointer, depth => .ok (formatUnsafeValue depth)
termination_by v _ => (sizeOf v, 0, 0)

/-- `formatArray`: the dispatch target for `Array`/`Slice` kinds (the
`slice` flag only influenced the kind, not the rendering). -/
def formatArray (t : GoType) (_slice : Bool) (elems : List RValue)
    (depth : Nat) : Except GoPanic String := do
  let size := elems.length
  let inner ←
    if size = 0 then
      -- This is an empty array.
      pure " "
    else
      -- This is a multivalued array.
      if depth < maximumDepth then do
        let body ← formatArrayElems elems (depth + 1)
        pure (body ++ formatNewline depth)
      else
        pure "..."
  let typeName := formatType t
  .ok ("[" ++ inner ++ "](" ++ typeName ++ ")")
termination_by (sizeOf elems, 1, 0)
decreasing_by
  apply Prod.Lex.right
  apply Prod.Lex.left
  omega

/-- The element loop of `formatArray`
(`result += formatNewline(depth); result += formatValue(value, depth)`,
in index order). -/
def formatArrayElems : List RValue → Nat → Except GoPanic String
  | [], _ => .ok ""
  | value :: rest, depth => do
      let s ← formatValue value depth
      let r ← formatArrayElems rest depth
      .ok (formatNewline depth ++ s ++ r)
termination_by elems _ => (sizeOf elems, 0, 0)
decreasing_by
  all_goals
    (apply Prod.Lex.left
     have h4 : sizeOf (value :: rest) =
       1 + sizeOf value + sizeOf rest := by simp
     have h5 := sizeOf_rvalue_pos value
     omega)

/-- `formatSequence`: the body renderer for a pointer's `AsArray`
sequence surface (no brackets, no type annotation).  `Len`/`Index` on a
non-sequence value is a reflection panic. -/
def formatSequence (reflected : RValue) (depth : Nat) :
    Except GoPanic String :=
  match reflected with
  | .array _t2 _sl2 elems =>
      if elems.length = 0 then
        -- This is an empty sequence.
        .ok " "
      else
        -- This is a multivalued sequence.
        if depth < maximumDepth then do
          let body ← formatSequenceElems elems (depth + 1)
          .ok (body ++ formatNewline depth)
        else
          .ok "..."
  | _ => .error .lenOfNonSequence
termination_by (sizeOf reflected, 1, 0)
decreasing_by
  apply Prod.Lex.left
  have h4 : sizeOf (RValue.array _t2 _sl2 elems) =
      1 + sizeOf _t2 + 1 + sizeOf elems := by simp
  omega

/-- The element loop of `formatSequence` (the source duplicates the
`formatArray` loop verbatim). -/
def formatSequenceElems : List RValue → Nat → Except GoPanic String
  | [], _ => .ok ""
  | value :: rest, depth => do
      let s ← formatValue value depth
      let r ← formatSequenceElems rest depth
      .ok (formatNewline depth ++ s ++ r)
termination_by elems _ => (sizeOf elems, 0, 0)
decreasing_by
  all_goals
    (apply Prod.Lex.left
     have h4 : sizeOf (value :: rest) =
       1 + sizeOf value + sizeOf rest := by simp
     have h5 := sizeOf_rvalue_pos value
     omega)

/-- `formatAssociations`: the body renderer for a pointer's `GetKeys`
associations surface; each element must expose zero-argument `GetKey`
and `GetValue` accessors (`Call` on an absent method is a reflection
panic). -/
def formatAssociations (reflected : RValue) (depth : Nat) :
    Except GoPanic String :=
  match reflected with
  | .array _t2 _sl2 elems =>
      if elems.length = 0 then
        -- This is an empty sequence of associations.
        .ok ":"
      else
        -- This is a multivalued sequence of associations.
        if depth < maximumDepth then do
          let body ← formatAssociationsElems elems (depth + 1)
          .ok (body ++ formatNewline depth)
        else
          .ok "..."
  | _ => .error .lenOfNonSequence
termination_by (sizeOf reflected, 1, 0)
decreasing_by
  apply Prod.Lex.left
  have h4 : sizeOf (RValue.array _t2 _sl2 elems) =
      1 + sizeOf _t2 + 1 + sizeOf elems := by simp
  omega

/-- The element loop of `formatAssociations`; the body of
`formatAssociation(key, value, depth)` is inlined here (see
`formatAssociation` and `formatAssociationsElems_eq` below). -/
def formatAssociationsElems : List RValue → Nat → Except GoPanic String
  | [], _ => .ok ""
  | association :: rest, depth =>
      match h1 : association.methodByName "GetKey" with
      | none => .error (.invalidMethodCall "GetKey")
      | some m1 =>
          match h2 : association.methodByName "GetValue" with
          | none => .error (.invalidMethodCall "GetValue")
          | some m2 => do
              let ks ← formatValue m1.result depth
              let vs ← formatValue m2.result depth
              let r ← formatAssociationsElems rest depth
              .ok (formatNewline depth ++ ks ++ ": " ++ vs ++ r)
termination_by elems _ => (sizeOf elems, 0, 0)
decreasing_by
  all_goals
    (apply Prod.Lex.left
     have h3 := sizeOf_methodResult_lt h1
     have h4 := sizeOf_methodResult_lt h2
     have h5 : sizeOf (value :: rest) =
       1 + sizeOf value + sizeOf rest := by simp
     omega)

/-- `formatMap`: sort the keys deterministically (see the long comment in
the source), then render the associations in sorted order.  The keys are
carried with their membership witnesses (`attach`) purely to justify
termination; `sliceStable` never inspects them. -/
def formatMap (t : GoType) (pairs : List (RValue × RValue)) (depth : Nat) :
    Except GoPanic String :=
  let size := pairs.length
  if size = 0 then
    -- This is an empty map.
    .ok ("[" ++ ":" ++ "](" ++ formatType t ++ ")")
  else
    -- This is a multivalued map.
    if depth < maximumDepth then
      -- First sort the keys since Go maps are non-deterministic.
      match sliceStable (fun a b => keyLess a.val b.val)
          (pairs.map Prod.fst).attach with
      | .error e => .error e
      | .ok sorted => do
          -- Format the key-value pairs in order.
          let body ← formatMapKeys pairs sorted (depth + 1)
          .ok ("[" ++ body ++ formatNewline depth ++ "](" ++
            formatType t ++ ")")
    else
      .ok ("[" ++ "..." ++ "](" ++ formatType t ++ ")")
termination_by (sizeOf pairs, 1, 0)
decreasing_by
  apply Prod.Lex.right
  apply Prod.Lex.left
  omega

/-- The per-key loop of `formatMap`: look each sorted key up with
`MapIndex` and render `formatAssociation(key, value, depth)` (inlined;
see `formatAssociation` and `formatMapKeys_eq` below). -/
def formatMapKeys (pairs : List (RValue × RValue))
    (sorted : List {x : RValue // x ∈ pairs.map Prod.fst}) (depth : Nat) :
    Except GoPanic String :=
  match sorted with
  | [] => .ok ""
  | ⟨key, hkey⟩ :: rest => do
      let value := mapIndex pairs key
      let ks ← formatValue key depth
      let vs ← formatValue value depth
      let r ← formatMapKeys pairs rest depth
      .ok (formatNewline depth ++ ks ++ ": " ++ vs ++ r)
termination_by (sizeOf pairs, 0, sorted.length)
decreasing_by
  · apply Prod.Lex.left
    exact sizeOf_key_lt hkey
  · apply Prod.Lex.left
    apply sizeOf_mapIndex_lt
    intro hnil
    rw [hnil] at hkey
    simp at hkey
  · apply Prod.Lex.right
    apply Prod.Lex.right
    simp

/-- `formatStructure`: render the visible fields (unexported fields as
`<private>`), annotated with the struct type. -/
def formatStructure (t : GoType) (fields : List (String × Bool × RValue))
    (depth : Nat) : Except GoPanic String := do
  let inner ←
    if depth < maximumDepth then do
      let body ← formatStructureFields fields (depth + 1)
      pure (body ++ formatNewline depth)
    else
      pure "..."
  .ok ("[" ++ inner ++ "](" ++ formatType t ++ ")")
termination_by (sizeOf fields, 1, 0)
decreasing_by
  apply Prod.Lex.right
  apply Prod.Lex.left
  omega

/-- The field loop of `formatStructure`. -/
def formatStructureFields :
    List (String × Bool × RValue) → Nat → Except GoPanic String
  | [], _ => .ok ""
  | (name, exported, value) :: rest, depth => do
      let vs ← if exported then formatValue value depth else pure "<private>"
      let r ← formatStructureFields rest depth
      .ok (formatNewline depth ++ name ++ ": " ++ vs ++ r)
termination_by fields _ => (sizeOf fields, 0, 0)
decreasing_by
  all_goals
    (apply Prod.Lex.left
     have h4 : sizeOf ((name, exported, value) :: rest) =
       1 + (1 + sizeOf name + (1 + 1 + sizeOf value)) + sizeOf rest := by
         simp
     have h5 := sizeOf_rvalue_pos value
     omega)

/-- `formatPointer`: the Reference-category dispatch.  The priority order
is exactly the source's `switch`: a `GetKeys` capability first (whose
content is fetched through `AsArray`), then an `AsArray` sequence
capability, then a nonempty method set rendered as a class instance, and
finally a plain dereference.  Every branch is wrapped in the `&[` marker
and the `](type)` annotation. -/
def formatPointer (t : GoType) (methods : List GoMethod) (elem : RValue)
    (depth : Nat) : Except GoPanic String := do
  let inner ←
    if (methodByName methods "GetKeys").isSome then
      -- Format the sequence of associations.
      match h : methodByName methods "AsArray" with
      | some m => formatAssociations m.result depth
      | none => .error (.invalidMethodCall "AsArray")
    else
      match h : methodByName methods "AsArray" with
      | some m =>
          -- Format the sequence of values.
          formatSequence m.result depth
      | none =>
          if methods.length > 0 then
            -- Format the instance of a class.
            formatInstance methods depth
          else
            -- Dereference the pointer.
            formatValue elem depth
  .ok ("&[" ++ inner ++ "](" ++ formatType t ++ ")")
termination_by (sizeOf methods + sizeOf elem, 1, 0)
decreasing_by
  · apply Prod.Lex.left
    have h1 := List.sizeOf_lt_of_mem (methodByName_mem h)
    have h2 := sizeOf_result_lt m
    omega
  · apply Prod.Lex.left
    have h1 := List.sizeOf_lt_of_mem (methodByName_mem h)
    have h2 := sizeOf_result_lt m
    omega
  · apply Prod.Lex.left
    have := sizeOf_rvalue_pos elem
    omega
  · apply Prod.Lex.left
    have := sizeOf_list_pos methods
    omega

/-- `formatInstance`: render the `Get*`-style zero-argument accessors of
a class instance as named fields. -/
def formatInstance (methods : List GoMethod) (depth : Nat) :
    Except GoPanic String :=
  if depth < maximumDepth then do
    let body ← formatInstanceMethods methods (depth + 1)
    .ok (body ++ formatNewline depth)
  else
    .ok "..."
termination_by (sizeOf methods, 0, 1)
decreasing_by
  apply Prod.Lex.right
  apply Prod.Lex.right
  simp

/-- The method loop of `formatInstance`: a method contributes a
`Name: value` line when its name starts with `Get` and it takes no
arguments and returns one value; `GetClass` formats the result type
instead of calling, to avoid recursion. -/
def formatInstanceMethods : List GoMethod → Nat → Except GoPanic String
  | [], _ => .ok ""
  | m :: rest, depth => do
      let entry ←
        if goStringStartsWith m.name "Get" ∧ m.numIn = 0 ∧ m.numOut = 1 then do
          let attributeName := m.name.drop 3
          let av ←
            if m.name = "GetClass" then
              -- Just format the class type to avoid any recursion.
              pure (formatType m.outType)
            else
              formatValue m.result depth
          pure (formatNewline depth ++ attributeName ++ ": " ++ av)
        else
          pure ""
      let r ← formatInstanceMethods rest depth
      .ok (entry ++ r)
termination_by ms _ => (sizeOf ms, 0, 0)
decreasing_by
  all_goals
    (apply Prod.Lex.left
     have h3 := sizeOf_result_lt m
     have h4 : sizeOf (m :: rest) = 1 + sizeOf m + sizeOf rest := by simp
     omega)

/-- `formatInterface`: format the value behind the interface. -/
def formatInterface (inner : RValue) (depth : Nat) :
    Except GoPanic String :=
  formatValue inner depth
termination_by (sizeOf inner, 1, 0)
decreasing_by
  apply Prod.Lex.right
  apply Prod.Lex.left
  omega

end

/-- `format`: the private entry point (`Format` in the public surface
wraps it). -/
def format (value : RValue) : Except GoPanic String :=
  formatValue value 0

/-- `Format`: the public entry point of the module. -/
def Format (value : RValue) : Except GoPanic String :=
  format value

/-- `formatAssociation`: render `key: value`.  (Inside the mutual block
its two-call body is inlined at both call sites; the lemmas
`formatMapKeys_eq`/`formatAssociationsElems_eq` below restate those
loops through this definition.) -/
def formatAssociation (key : RValue) (value : RValue) (depth : Nat) :
    Except GoPanic String := do
  let ks ← formatValue key depth
  let vs ← formatValue value depth
  .ok (ks ++ ": " ++ vs)

/-- The per-key rendering loop of `formatMap` restated over a plain key
list (see `formatMapKeys_eq`): used to compare runs of `formatMap` on
different storage orders of the same pairs. -/
def mapRenderLoop : List RValue → List (RValue × RValue) → Nat →
    Except GoPanic String
  | [], _, _ => .ok ""
  | key :: rest, pairs, depth => do
      let a ← formatAssociation key (mapIndex pairs key) depth
      let r ← mapRenderLoop rest pairs depth
      .ok (formatNewline depth ++ a ++ r)

/-- The key sequence `formatMap` renders (the result of the stable sort),
exposed as a plain list. -/
def renderedKeyOrder (pairs : List (RValue × RValue)) :
    Except GoPanic (List RValue) :=
  match sliceStable (fun a b => keyLess a.val b.val)
      (pairs.map Prod.fst).attach with
  | .error e => .error e
  | .ok sorted => .ok (sorted.map Subtype.val)

/-- Modelled from the spec: the `TypeRank` priority table of §4.2
("Boolean(0) < unsigned-integer kinds in ascending width (1–5) <
signed-integer kinds in ascending width (6–9) < floating-point kinds
(10–11) < complex kinds (12–13) < character(14) < text(15)"); kinds
outside the table get a sentinel above every tabulated rank. -/
def specRank : Kind → Nat
  | .bool => 0
  | .uint8 => 1
  | .uint16 => 2
  | .uint32 => 3
  | .uint64 => 4
  | .uint => 5
  | .int8 => 6
  | .int16 => 7
  | .int64 => 8
  | .int => 9
  | .float32 => 10
  | .float64 => 11
  | .complex64 => 12
  | .complex128 => 13
  | .int32 => 14
  | .string => 15
  | _ => 99

/-- Modelled from the spec: the within-rank value ordering of §4.2
("booleans false-before-true; integers/unsigned numerically; floats
numerically; complex numbers by magnitude (absolute value); characters
by code point; text lexicographically by code point sequence"). -/
def specValueLess (k : Kind) (a b : RValue) : Bool :=
  match k with
  | .bool => !a.boolProj && b.boolProj
  | .int8 | .int16 | .int64 | .int => decide (a.intProj < b.intProj)
  | .uint8 | .uint16 | .uint32 | .uint64 | .uint =>
      decide (a.uintProj < b.uintProj)
  | .float32 | .float64 => decide (a.floatProj < b.floatProj)
  | .complex64 | .complex128 => decide (a.ampSq < b.ampSq)
  | .int32 => decide (a.intProj < b.intProj)
  | .string => decide (a.strProj < b.strProj)
  | _ => false

/-- Modelled from the spec: the §4.2 key ordering — unwrap one
polymorphic-wrapper layer, then "keys with differing TypeRank sort by
TypeRank ascending", and "keys sharing TypeRank sort by value". -/
def specLess (x y : RValue) : Bool :=
  let a := unwrapKey x
  let b := unwrapKey y
  if specRank a.kind ≠ specRank b.kind then
    decide (specRank a.kind < specRank b.kind)
  else
    specValueLess a.kind a b

/-- The dispatch arms of the `formatValue` switch (every kind the source
handles without reaching the `default` panic; the invalid kind is
handled by the `IsValid()` test before the switch). -/
def kindHandled : Kind → Bool
  | .invalid => true
  | .bool => true
  | .uint | .uint8 | .uint16 | .uint32 | .uint64 | .uintptr => true
  | .int | .int8 | .int16 | .int64 => true
  | .float32 | .float64 => true
  | .complex64 | .complex128 => true
  | .int32 => true
  | .string => true
  | .func => true
  | .chan => true
  | .array | .slice => true
  | .map => true
  | .struct => true
  | .pointer => true
  | .interface => true
  | .unsafePointer => true

/-- A renderer result that is not the dispatch-default panic: the
`unsupportedKind` panic models the `default` branch of the source's kind
switch, and the development proves the renderer never produces it. -/
def noDispatchPanic {α : Type} : Except GoPanic α → Prop
  | .error (.unsupportedKind _) => False
  | _ => True

/-- Reflexivity of `beqType` and `beqTypeList`, by strong induction on
size. -/
theorem beqType_refl_all : ∀ n : Nat,
    (∀ a : GoType, sizeOf a ≤ n → beqType a a = true) ∧
    (∀ l : List GoType, sizeOf l ≤ n → beqTypeList l l = true) := by
  intro n
  induction n using Nat.strong_induction_on with
  | _ n ih =>
    constructor
    · intro a hsz
      cases a <;> simp [beqType]
      case ptr t =>
        have h1 : sizeOf t < sizeOf (GoType.ptr t) := by simp
        exact (ih (n - 1) (by omega)).1 t (by omega)
      case fn ins outs =>
        have h1 : sizeOf (GoType.fn ins outs) =
            1 + sizeOf ins + sizeOf outs := by simp
        refine ⟨(ih (n - 1) (by omega)).2 ins (by omega),
          (ih (n - 1) (by omega)).2 outs (by omega)⟩
      case chan d e =>
        have h1 : sizeOf (GoType.chan d e) = 1 + 1 + sizeOf e := by
          cases d <;> simp
        exact (ih (n - 1) (by omega)).1 e (by omega)
      case array e =>
        have h1 : sizeOf (GoType.array e) = 1 + sizeOf e := by simp
        exact (ih (n - 1) (by omega)).1 e (by omega)
      case map k v =>
        have h1 : sizeOf (GoType.map k v) = 1 + sizeOf k + sizeOf v := by simp
        refine ⟨(ih (n - 1) (by omega)).1 k (by omega),
          (ih (n - 1) (by omega)).1 v (by omega)⟩
    · intro l hsz
      cases l with
      | nil => simp [beqTypeList]
      | cons a rest =>
          have h1 : sizeOf (a :: rest) = 1 + sizeOf a + sizeOf rest := by simp
          have h2 : 0 < sizeOf a := by cases a <;> simp_arith
          refine (by simp [beqTypeList] : beqTypeList (a :: rest) (a :: rest) =
            (beqType a a && beqTypeList rest rest)) ▸ ?_
          simp only [Bool.and_eq_true]
          exact ⟨(ih (n - 1) (by omega)).1 a (by omega),
            (ih (n - 1) (by omega)).2 rest (by omega)⟩

/-- `beqType` is reflexive. -/
theorem beqType_refl (a : GoType) : beqType a a = true :=
  (beqType_refl_all (sizeOf a)).1 a le_rfl

/-- Soundness of `beqType` and `beqTypeList`, by strong induction on
size. -/
theorem beqType_sound_all : ∀ n : Nat,
    (∀ a b : GoType, sizeOf a ≤ n → beqType a b = true → a = b) ∧
    (∀ l1 l2 : List GoType, sizeOf l1 ≤ n → beqTypeList l1 l2 = true →
      l1 = l2) := by
  intro n
  induction n using Nat.strong_induction_on with
  | _ n ih =>
    constructor
    · intro a b hsz hbeq
      cases a <;> cases b <;> simp [beqType] at hbeq <;> try (first | rfl | (subst hbeq; rfl))
      case ptr.ptr t1 t2 =>
        have h1 : sizeOf (GoType.ptr t1) = 1 + sizeOf t1 := by simp
        exact congrArg GoType.ptr ((ih (n - 1) (by omega)).1 t1 t2 (by omega) hbeq)
      case fn.fn i1 o1 i2 o2 =>
        have h1 : sizeOf (GoType.fn i1 o1) = 1 + sizeOf i1 + sizeOf o1 := by
          simp
        have e1 := (ih (n - 1) (by omega)).2 i1 i2 (by omega) hbeq.1
        have e2 := (ih (n - 1) (by omega)).2 o1 o2 (by omega) hbeq.2
        rw [e1, e2]
      case chan.chan d1 e1 d2 e2 =>
        have h1 : sizeOf (GoType.chan d1 e1) = 1 + 1 + sizeOf e1 := by
          cases d1 <;> simp
        have e3 := (ih (n - 1) (by omega)).1 e1 e2 (by omega) hbeq.2
        rw [hbeq.1, e3]
      case array.array e1 e2 =>
        have h1 : sizeOf (GoType.array e1) = 1 + sizeOf e1 := by simp
        exact congrArg GoType.array
          ((ih (n - 1) (by omega)).1 e1 e2 (by omega) hbeq)
      case map.map k1 v1 k2 v2 =>
        have h1 : sizeOf (GoType.map k1 v1) = 1 + sizeOf k1 + sizeOf v1 := by
          simp
        have e1 := (ih (n - 1) (by omega)).1 k1 k2 (by omega) hbeq.1
        have e2 := (ih (n - 1) (by omega)).1 v1 v2 (by omega) hbeq.2
        rw [e1, e2]
    · intro l1 l2 hsz hbeq
      cases l1 <;> cases l2 <;> simp [beqTypeList] at hbeq ⊢
      case cons.cons a r1 b r2 =>
        have h1 : sizeOf (a :: r1) = 1 + sizeOf a + sizeOf r1 := by simp
        have h2 : 0 < sizeOf a := by cases a <;> simp_arith
        exact ⟨(ih (n - 1) (by omega)).1 a b (by omega) hbeq.1,
          (ih (n - 1) (by omega)).2 r1 r2 (by omega) hbeq.2⟩

/-- `beqType` is sound. -/
theorem beqType_sound {a b : GoType} (h : beqType a b = true) : a = b :=
  (beqType_sound_all (sizeOf a)).1 a b le_rfl h

/-- Reflexivity of the five value-equality functions, by strong induction
on size. -/
theorem beqRV_refl_all : ∀ n : Nat,
    (∀ a : RValue, sizeOf a ≤ n → beqRV a a = true) ∧
    (∀ l : List RValue, sizeOf l ≤ n → beqRVList l l = true) ∧
    (∀ l : List (RValue × RValue), sizeOf l ≤ n → beqRVPairs l l = true) ∧
    (∀ l : List (String × Bool × RValue), sizeOf l ≤ n →
      beqRVFields l l = true) ∧
    (∀ l : List GoMethod, sizeOf l ≤ n → beqMethods l l = true) := by
  intro n
  induction n using Nat.strong_induction_on with
  | _ n ih =>
    refine ⟨?_, ?_, ?_, ?_, ?_⟩
    · intro a hsz
      cases a <;> simp [beqRV, beqType_refl]
      case array t sl elems =>
        have h1 : sizeOf (RValue.array t sl elems) =
            1 + sizeOf t + 1 + sizeOf elems := by simp
        have h2 : 0 < sizeOf t := by cases t <;> simp_arith
        exact (ih (n - 1) (by omega)).2.1 elems (by omega)
      case map t pairs =>
        have h1 : sizeOf (RValue.map t pairs) =
            1 + sizeOf t + sizeOf pairs := by simp
        have h2 : 0 < sizeOf t := by cases t <;> simp_arith
        exact (ih (n - 1) (by omega)).2.2.1 pairs (by omega)
      case struct t fields =>
        have h1 : sizeOf (RValue.struct t fields) =
            1 + sizeOf t + sizeOf fields := by simp
        have h2 : 0 < sizeOf t := by cases t <;> simp_arith
        exact (ih (n - 1) (by omega)).2.2.2.1 fields (by omega)
      case pointer t methods elem =>
        have h1 : sizeOf (RValue.pointer t methods elem) =
            1 + sizeOf t + sizeOf methods + sizeOf elem := by simp
        have h2 : 0 < sizeOf t := by cases t <;> simp_arith
        have h3 := sizeOf_rvalue_pos elem
        have h4 := sizeOf_list_pos methods
        exact ⟨(ih (n - 1) (by omega)).2.2.2.2 methods (by omega),
          (ih (n - 1) (by omega)).1 elem (by omega)⟩
      case iface inner =>
        have h1 : sizeOf (RValue.iface inner) = 1 + sizeOf inner := by simp
        exact (ih (n - 1) (by omega)).1 inner (by omega)
    · intro l hsz
      cases l with
      | nil => simp [beqRVList]
      | cons a rest =>
          have h1 : sizeOf (a :: rest) = 1 + sizeOf a + sizeOf rest := by simp
          have h2 := sizeOf_rvalue_pos a
          simp only [beqRVList, Bool.and_eq_true]
          exact ⟨(ih (n - 1) (by omega)).1 a (by omega),
            (ih (n - 1) (by omega)).2.1 rest (by omega)⟩
    · intro l hsz
      cases l with
      | nil => simp [beqRVPairs]
      | cons p rest =>
          obtain ⟨k, v⟩ := p
          have h1 : sizeOf ((k, v) :: rest) =
              1 + (1 + sizeOf k + sizeOf v) + sizeOf rest := by simp
          have h2 := sizeOf_rvalue_pos k
          have h3 := sizeOf_rvalue_pos v
          simp only [beqRVPairs, Bool.and_eq_true]
          exact ⟨⟨(ih (n - 1) (by omega)).1 k (by omega),
            (ih (n - 1) (by omega)).1 v (by omega)⟩,
            (ih (n - 1) (by omega)).2.2.1 rest (by omega)⟩
    · intro l hsz
      cases l with
      | nil => simp [beqRVFields]
      | cons f rest =>
          obtain ⟨nm, ex, v⟩ := f
          have h1 : sizeOf ((nm, ex, v) :: rest) =
              1 + (1 + sizeOf nm + (1 + 1 + sizeOf v)) + sizeOf rest := by
            simp
          have h2 := sizeOf_rvalue_pos v
          simp only [beqRVFields, Bool.and_eq_true]
          refine ⟨⟨⟨by simp, by simp⟩, (ih (n - 1) (by omega)).1 v (by omega)⟩,
            (ih (n - 1) (by omega)).2.2.2.1 rest (by omega)⟩
    · intro l hsz
      cases l with
      | nil => simp [beqMethods]
      | cons m rest =>
          obtain ⟨nm, i, o, t, r⟩ := m
          have h1 : sizeOf (GoMethod.mk nm i o t r :: rest) =
              1 + (1 + sizeOf nm + i + o + sizeOf t + sizeOf r) +
                sizeOf rest := by simp
          have h2 := sizeOf_rvalue_pos r
          have h3 : 0 < sizeOf t := by cases t <;> simp_arith
          simp only [beqMethods, Bool.and_eq_true]
          refine ⟨⟨⟨⟨⟨by simp, by simp⟩, by simp⟩, beqType_refl t⟩,
            (ih (n - 1) (by omega)).1 r (by omega)⟩,
            (ih (n - 1) (by omega)).2.2.2.2 rest (by omega)⟩

/-- `beqRV` is reflexive. -/
theorem beqRV_refl (a : RValue) : beqRV a a = true :=
  (beqRV_refl_all (sizeOf a)).1 a le_rfl

/-- Soundness of the five value-equality functions, by strong induction
on size. -/
theorem beqRV_sound_all : ∀ n : Nat,
    (∀ a b : RValue, sizeOf a ≤ n → beqRV a b = true → a = b) ∧
    (∀ l1 l2 : List RValue, sizeOf l1 ≤ n → beqRVList l1 l2 = true →
      l1 = l2) ∧
    (∀ l1 l2 : List (RValue × RValue), sizeOf l1 ≤ n →
      beqRVPairs l1 l2 = true → l1 = l2) ∧
    (∀ l1 l2 : List (String × Bool × RValue), sizeOf l1 ≤ n →
      beqRVFields l1 l2 = true → l1 = l2) ∧
    (∀ l1 l2 : List GoMethod, sizeOf l1 ≤ n → beqMethods l1 l2 = true →
      l1 = l2) := by
  intro n
  induction n using Nat.strong_induction_on with
  | _ n ih =>
    refine ⟨?_, ?_, ?_, ?_, ?_⟩
    · intro a b hsz hbeq
      cases a <;> cases b <;> simp [beqRV] at hbeq <;>
        try (first | rfl | (subst hbeq; rfl) | (rw [hbeq.1, hbeq.2]) |
          (rw [hbeq.1.1, hbeq.1.2, hbeq.2]))
      case func.func n1 t1 n2 t2 =>
        rw [hbeq.1, beqType_sound hbeq.2]
      case chan.chan d1 e1 c1 s1 d2 e2 c2 s2 =>
        obtain ⟨⟨⟨hd, ht⟩, hc⟩, hs⟩ := hbeq
        rw [hd, beqType_sound ht, hc, hs]
      case array.array t1 sl1 el1 t2 sl2 el2 =>
        have h1 : sizeOf (RValue.array t1 sl1 el1) =
            1 + sizeOf t1 + 1 + sizeOf el1 := by simp
        have h2 : 0 < sizeOf t1 := by cases t1 <;> simp_arith
        obtain ⟨⟨ht, hsl⟩, hel⟩ := hbeq
        rw [beqType_sound ht, hsl,
          (ih (n - 1) (by omega)).2.1 el1 el2 (by omega) hel]
      case map.map t1 p1 t2 p2 =>
        have h1 : sizeOf (RValue.map t1 p1) = 1 + sizeOf t1 + sizeOf p1 := by
          simp
        have h2 : 0 < sizeOf t1 := by cases t1 <;> simp_arith
        rw [beqType_sound hbeq.1,
          (ih (n - 1) (by omega)).2.2.1 p1 p2 (by omega) hbeq.2]
      case struct.struct t1 f1 t2 f2 =>
        have h1 : sizeOf (RValue.struct t1 f1) =
            1 + sizeOf t1 + sizeOf f1 := by simp
        have h2 : 0 < sizeOf t1 := by cases t1 <;> simp_arith
        rw [beqType_sound hbeq.1,
          (ih (n - 1) (by omega)).2.2.2.1 f1 f2 (by omega) hbeq.2]
      case pointer.pointer t1 m1 e1 t2 m2 e2 =>
        have h1 : sizeOf (RValue.pointer t1 m1 e1) =
            1 + sizeOf t1 + sizeOf m1 + sizeOf e1 := by simp
        have h2 : 0 < sizeOf t1 := by cases t1 <;> simp_arith
        have h3 := sizeOf_rvalue_pos e1
        have h4 := sizeOf_list_pos m1
        obtain ⟨⟨ht, hm⟩, he⟩ := hbeq
        rw [beqType_sound ht,
          (ih (n - 1) (by omega)).2.2.2.2 m1 m2 (by omega) hm,
          (ih (n - 1) (by omega)).1 e1 e2 (by omega) he]
      case iface.iface i1 i2 =>
        have h1 : sizeOf (RValue.iface i1) = 1 + sizeOf i1 := by simp
        rw [(ih (n - 1) (by omega)).1 i1 i2 (by omega) hbeq]
    · intro l1 l2 hsz hbeq
      cases l1 <;> cases l2 <;> simp [beqRVList] at hbeq ⊢
      case cons.cons a r1 b r2 =>
        have h1 : sizeOf (a :: r1) = 1 + sizeOf a + sizeOf r1 := by simp
        have h2 := sizeOf_rvalue_pos a
        exact ⟨(ih (n - 1) (by omega)).1 a b (by omega) hbeq.1,
          (ih (n - 1) (by omega)).2.1 r1 r2 (by omega) hbeq.2⟩
    · intro l1 l2 hsz hbeq
      cases l1 <;> cases l2 <;> try (simp [beqRVPairs] at hbeq ⊢)
      case cons.cons p r1 q r2 =>
        obtain ⟨k1, v1⟩ := p
        obtain ⟨k2, v2⟩ := q
        simp [beqRVPairs] at hbeq ⊢
        have h1 : sizeOf ((k1, v1) :: r1) =
            1 + (1 + sizeOf k1 + sizeOf v1) + sizeOf r1 := by simp
        have h2 := sizeOf_rvalue_pos k1
        have h3 := sizeOf_rvalue_pos v1
        obtain ⟨⟨hk, hv⟩, hr⟩ := hbeq
        exact ⟨⟨(ih (n - 1) (by omega)).1 k1 k2 (by omega) hk,
          (ih (n - 1) (by omega)).1 v1 v2 (by omega) hv⟩,
          (ih (n - 1) (by omega)).2.2.1 r1 r2 (by omega) hr⟩
    · intro l1 l2 hsz hbeq
      cases l1 <;> cases l2 <;> try (simp [beqRVFields] at hbeq ⊢)
      case cons.cons f r1 g r2 =>
        obtain ⟨nm1, ex1, v1⟩ := f
        obtain ⟨nm2, ex2, v2⟩ := g
        simp [beqRVFields] at hbeq ⊢
        have h1 : sizeOf ((nm1, ex1, v1) :: r1) =
            1 + (1 + sizeOf nm1 + (1 + 1 + sizeOf v1)) + sizeOf r1 := by simp
        have h2 := sizeOf_rvalue_pos v1
        obtain ⟨⟨⟨hn2, he2⟩, hv⟩, hr⟩ := hbeq
        exact ⟨⟨hn2, he2,
          (ih (n - 1) (by omega)).1 v1 v2 (by omega) hv⟩,
          (ih (n - 1) (by omega)).2.2.2.1 r1 r2 (by omega) hr⟩
    · intro l1 l2 hsz hbeq
      cases l1 <;> cases l2 <;> try (simp [beqMethods] at hbeq ⊢)
      case cons.cons m r1 m2 r2 =>
        obtain ⟨nm1, i1, o1, t1, v1⟩ := m
        obtain ⟨nm2, i2, o2, t2, v2⟩ := m2
        simp [beqMethods] at hbeq ⊢
        have h1 : sizeOf (GoMethod.mk nm1 i1 o1 t1 v1 :: r1) =
            1 + (1 + sizeOf nm1 + i1 + o1 + sizeOf t1 + sizeOf v1) +
              sizeOf r1 := by simp
        have h2 := sizeOf_rvalue_pos v1
        have h3 : 0 < sizeOf t1 := by cases t1 <;> simp_arith
        obtain ⟨⟨⟨⟨⟨hn, hi⟩, ho⟩, ht⟩, hv⟩, hr⟩ := hbeq
        exact ⟨⟨hn, hi, ho, beqType_sound ht,
          (ih (n - 1) (by omega)).1 v1 v2 (by omega) hv⟩,
          (ih (n - 1) (by omega)).2.2.2.2 r1 r2 (by omega) hr⟩

/-- `beqRV` is sound: values that Go's map-key equality identifies are
equal in the embedding. -/
theorem beqRV_sound {a b : RValue} (h : beqRV a b = true) : a = b :=
  (beqRV_sound_all (sizeOf a)).1 a b le_rfl h

/-- `Except` computation rules (restated locally for `simp`). -/
@[simp] theorem ok_bind {α β : Type} (a : α) (f : α → Except GoPanic β) :
    (Except.ok a >>= f) = f a := rfl

/-- Errors absorb the rest of a computation. -/
@[simp] theorem error_bind {α β : Type} (e : GoPanic)
    (f : α → Except GoPanic β) :
    ((Except.error e : Except GoPanic α) >>= f) = .error e := rfl

/-- `pure` is `Except.ok`. -/
@[simp] theorem pure_eq_ok {α : Type} (a : α) :
    (pure a : Except GoPanic α) = .ok a := rfl

/-- When no comparison panics, a monadic insertion step is the pure one. -/
theorem orderedInsertM_pure {α : Type} {less : α → α → Except GoPanic Bool}
    {ltB : α → α → Bool} (H : ∀ a b : α, less a b = .ok (ltB a b)) (y : α) :
    ∀ l : List α, orderedInsertM less y l = .ok (orderedInsertP ltB y l) := by
  intro l
  induction l with
  | nil => simp [orderedInsertM, orderedInsertP]
  | cons x xs ihl =>
      by_cases h : ltB y x = true
      · simp [orderedInsertM, orderedInsertP, H y x, h]
      · simp at h
        simp [orderedInsertM, orderedInsertP, H y x, h, ihl]

/-- When no comparison panics, the monadic insertion loop is the pure
one. -/
theorem insertAllM_pure {α : Type} {less : α → α → Except GoPanic Bool}
    {ltB : α → α → Bool} (H : ∀ a b : α, less a b = .ok (ltB a b)) :
    ∀ xs sorted : List α,
      insertAllM less xs sorted = .ok (insertAllP ltB xs sorted) := by
  intro xs
  induction xs with
  | nil => intro sorted; simp [insertAllM, insertAllP]
  | cons x rest ihx =>
      intro sorted
      simp [insertAllM, insertAllP, orderedInsertM_pure H, ihx]

/-- When no comparison panics, the modelled `sort.SliceStable` returns
the pure stable sort. -/
theorem sliceStable_pure {α : Type} {less : α → α → Except GoPanic Bool}
    {ltB : α → α → Bool} (H : ∀ a b : α, less a b = .ok (ltB a b))
    (xs : List α) : sliceStable less xs = .ok (stableSortP ltB xs) :=
  insertAllM_pure H xs []

/-- The sort panics as soon as the comparator does; in particular the
first comparison of the insertion sort is `less` of the second stored
key against the first. -/
theorem sliceStable_error_second {α : Type}
    {less : α → α → Except GoPanic Bool} {a b : α} {l : List α}
    {e : GoPanic} (h : less b a = .error e) :
    sliceStable less (a :: b :: l) = .error e := by
  simp [sliceStable, insertAllM, orderedInsertM, h]

/-- Membership in a pure insertion. -/
theorem mem_orderedInsertP {α : Type} {lt : α → α → Bool} {y c : α} :
    ∀ {l : List α}, c ∈ orderedInsertP lt y l ↔ c = y ∨ c ∈ l := by
  intro l
  induction l with
  | nil => simp [orderedInsertP]
  | cons x xs ihl =>
      by_cases h : lt y x = true
      · simp [orderedInsertP, h]
        try tauto
      · simp at h
        simp [orderedInsertP, h, ihl]
        try tauto

/-- A pure insertion permutes the inserted cons cell. -/
theorem orderedInsertP_perm {α : Type} (lt : α → α → Bool) (y : α) :
    ∀ l : List α, List.Perm (orderedInsertP lt y l) (y :: l) := by
  intro l
  induction l with
  | nil => simp [orderedInsertP]
  | cons x xs ihl =>
      by_cases h : lt y x = true
      · simp [orderedInsertP, h]
      · simp at h
        simp only [orderedInsertP, h, Bool.false_eq_true, if_false]
        exact (ihl.cons x).trans (List.Perm.swap y x xs)

/-- The insertion loop permutes the concatenation. -/
theorem insertAllP_perm {α : Type} (lt : α → α → Bool) :
    ∀ xs sorted : List α,
      List.Perm (insertAllP lt xs sorted) (xs ++ sorted) := by
  intro xs
  induction xs with
  | nil => intro sorted; simp [insertAllP]
  | cons x rest ihx =>
      intro sorted
      have h1 : List.Perm (insertAllP lt rest (orderedInsertP lt x sorted))
          (rest ++ orderedInsertP lt x sorted) := ihx _
      have h2 : List.Perm (rest ++ orderedInsertP lt x sorted)
          (rest ++ (x :: sorted)) :=
        List.Perm.append_left rest (orderedInsertP_perm lt x sorted)
      have h3 : List.Perm (rest ++ (x :: sorted)) (x :: (rest ++ sorted)) :=
        List.perm_middle
      exact ((h1.trans h2).trans h3)

/-- The pure stable sort is a permutation of its input. -/
theorem stableSortP_perm {α : Type} (lt : α → α → Bool) (xs : List α) :
    List.Perm (stableSortP lt xs) xs := by
  simpa using insertAllP_perm lt xs []

/-- Inserting into a list with no strict inversions preserves that
property, given transitivity and asymmetry of the strict comparison. -/
theorem orderedInsertP_pairwise {α : Type} {lt : α → α → Bool}
    (htrans : ∀ a b c, lt a b = true → lt b c = true → lt a c = true)
    (hasym : ∀ a b, lt a b = true → lt b a = false) (y : α) :
    ∀ {l : List α}, l.Pairwise (fun a b => lt b a = false) →
      (orderedInsertP lt y l).Pairwise (fun a b => lt b a = false) := by
  intro l
  induction l with
  | nil => intro _; simp [orderedInsertP]
  | cons x xs ihl =>
      intro hl
      rw [List.pairwise_cons] at hl
      obtain ⟨hx, hxs⟩ := hl
      by_cases h : lt y x = true
      · simp only [orderedInsertP, h, if_true]
        rw [List.pairwise_cons]
        constructor
        · intro b hb
          rcases List.mem_cons.mp hb with rfl | hbxs
          · exact hasym y b h
          · rcases hlt : lt b y with _ | _
            · rfl
            · exact absurd (htrans b y x hlt h) (by simp [hx b hbxs])
        · exact List.pairwise_cons.mpr ⟨hx, hxs⟩
      · simp at h
        simp only [orderedInsertP, h, Bool.false_eq_true, if_false]
        rw [List.pairwise_cons]
        constructor
        · intro b hb
          rcases mem_orderedInsertP.mp hb with rfl | hbxs
          · exact h
          · exact hx b hbxs
        · exact ihl hxs

/-- The insertion loop preserves sortedness of the accumulator. -/
theorem insertAllP_pairwise {α : Type} {lt : α → α → Bool}
    (htrans : ∀ a b c, lt a b = true → lt b c = true → lt a c = true)
    (hasym : ∀ a b, lt a b = true → lt b a = false) :
    ∀ xs sorted : List α, sorted.Pairwise (fun a b => lt b a = false) →
      (insertAllP lt xs sorted).Pairwise (fun a b => lt b a = false) := by
  intro xs
  induction xs with
  | nil => intro sorted h; simpa [insertAllP] using h
  | cons x rest ihx =>
      intro sorted h
      exact ihx _ (orderedInsertP_pairwise htrans hasym x h)

/-- The pure stable sort produces a list with no strict inversions. -/
theorem stableSortP_pairwise {α : Type} {lt : α → α → Bool}
    (htrans : ∀ a b c, lt a b = true → lt b c = true → lt a c = true)
    (hasym : ∀ a b, lt a b = true → lt b a = false) (xs : List α) :
    (stableSortP lt xs).Pairwise (fun a b => lt b a = false) :=
  insertAllP_pairwise htrans hasym xs [] (by simp)

/-- Two sorted permutations of the same elements agree when no two
distinct elements tie under the strict comparison. -/
theorem eq_of_perm_of_pairwise_of_untied {α : Type} {lt : α → α → Bool} :
    ∀ {l1 l2 : List α}, List.Perm l1 l2 →
      l1.Pairwise (fun a b => lt b a = false) →
      l2.Pairwise (fun a b => lt b a = false) →
      (∀ a ∈ l1, ∀ b ∈ l1, a ≠ b → lt a b = true ∨ lt b a = true) →
      l1 = l2 := by
  intro l1
  induction l1 with
  | nil => intro l2 hperm _ _ _; exact (hperm.nil_eq).symm ▸ rfl
  | cons a r1 ih =>
      intro l2 hperm hs1 hs2 huntied
      cases l2 with
      | nil => exact absurd hperm.symm.nil_eq (by simp)
      | cons b r2 =>
          have hab : a = b := by
            by_contra hne
            have ha2 : a ∈ b :: r2 := hperm.mem_iff.mp (by simp)
            have hb1 : b ∈ a :: r1 := hperm.mem_iff.mpr (by simp)
            have har2 : a ∈ r2 := by
              rcases List.mem_cons.mp ha2 with h | h
              · exact absurd h hne
              · exact h
            have hbr1 : b ∈ r1 := by
              rcases List.mem_cons.mp hb1 with h | h
              · exact absurd h.symm hne
              · exact h
            have h1 : lt b a = false :=
              (List.pairwise_cons.mp hs1).1 b hbr1
            have h2 : lt a b = false :=
              (List.pairwise_cons.mp hs2).1 a har2
            rcases huntied a (by simp) b (by simp [hbr1]) hne with h | h
            · rw [h2] at h; exact absurd h (by simp)
            · rw [h1] at h; exact absurd h (by simp)
          subst hab
          have hperm2 : List.Perm r1 r2 := hperm.cons_inv
          have := ih hperm2 (List.pairwise_cons.mp hs1).2
            (List.pairwise_cons.mp hs2).2
            (fun x hx y hy hne => huntied x (by simp [hx]) y (by simp [hy]) hne)
          rw [this]

/-- Sorting attached elements and projecting commutes (insertion step). -/
theorem orderedInsertP_map {α β : Type} (f : β → α) (lt : α → α → Bool)
    (y : β) : ∀ l : List β,
      (orderedInsertP (fun a b => lt (f a) (f b)) y l).map f =
        orderedInsertP lt (f y) (l.map f) := by
  intro l
  induction l with
  | nil => simp [orderedInsertP]
  | cons x xs ihl =>
      by_cases h : lt (f y) (f x) = true
      · simp [orderedInsertP, h]
      · simp at h
        simp [orderedInsertP, h, ihl]

/-- Sorting attached elements and projecting commutes (loop). -/
theorem insertAllP_map {α β : Type} (f : β → α) (lt : α → α → Bool) :
    ∀ xs sorted : List β,
      (insertAllP (fun a b => lt (f a) (f b)) xs sorted).map f =
        insertAllP lt (xs.map f) (sorted.map f) := by
  intro xs
  induction xs with
  | nil => intro sorted; simp [insertAllP]
  | cons x rest ihx =>
      intro sorted
      simp [insertAllP, ihx, orderedInsertP_map]

/-- Sorting attached elements and projecting commutes. -/
theorem stableSortP_map {α β : Type} (f : β → α) (lt : α → α → Bool)
    (xs : List β) :
    (stableSortP (fun a b => lt (f a) (f b)) xs).map f =
      stableSortP lt (xs.map f) := by
  simpa [stableSortP] using insertAllP_map f lt xs []

/-- The comparator agrees with its pure reading on orderable keys. -/
theorem keyLess_eq_ok {x y : RValue}
    (hx : orderableKind (unwrapKey x).kind = true)
    (hy : orderableKind (unwrapKey y).kind = true) :
    keyLess x y = .ok (keyLessB x y) := by
  unfold keyLess keyLessB
  by_cases hk : (unwrapKey x).kind = (unwrapKey y).kind
  · simp only [hk, ne_eq, not_true_eq_false, if_false, ite_false]
    rcases hk2 : (unwrapKey y).kind <;> rw [hk2] at hy <;>
      simp_all [orderableKind, valueLess]
  · simp only [ne_eq, hk, not_false_eq_true, if_true, ite_true]

/-- The per-kind value comparison is asymmetric. -/
theorem valueLess_asymm (k : Kind) (a b : RValue)
    (h : valueLess k a b = true) : valueLess k b a = false := by
  cases k <;>
    simp only [valueLess, decide_eq_true_eq, decide_eq_false_iff_not,
      Bool.and_eq_true, Bool.not_eq_true'] at h ⊢
  case string =>
    intro hc
    exact lt_asymm h hc
  all_goals
    first
      | simp at h
      | omega
      | exact lt_asymm h
      | (obtain ⟨h1, h2⟩ := h; simp [h1, h2])

/-- The per-kind value comparison is transitive. -/
theorem valueLess_trans (k : Kind) (a b c : RValue)
    (h1 : valueLess k a b = true) (h2 : valueLess k b c = true) :
    valueLess k a c = true := by
  cases k <;>
    simp only [valueLess, decide_eq_true_eq, Bool.and_eq_true,
      Bool.not_eq_true'] at h1 h2 ⊢
  case string =>
    exact lt_trans h1 h2
  all_goals
    first
      | simp at h1
      | omega
      | exact lt_trans h1 h2
      | (exact absurd h2.1 (by simp [h1.2]))

/-- `keyLessB` is asymmetric. -/
theorem keyLessB_asymm (x y : RValue) (h : keyLessB x y = true) :
    keyLessB y x = false := by
  unfold keyLessB at h ⊢
  by_cases hk : (unwrapKey x).kind = (unwrapKey y).kind
  · simp only [hk, ne_eq, not_true_eq_false, if_false, ite_false] at h ⊢
    rw [← hk] at h ⊢
    exact valueLess_asymm _ _ _ h
  · have hk2 : ¬((unwrapKey y).kind = (unwrapKey x).kind) := fun hh => hk hh.symm
    simp only [ne_eq, hk, hk2, not_false_eq_true, if_true, ite_true] at h ⊢
    simp at h ⊢
    omega

/-- `keyLessB` is transitive. -/
theorem keyLessB_trans (x y z : RValue) (h1 : keyLessB x y = true)
    (h2 : keyLessB y z = true) : keyLessB x z = true := by
  unfold keyLessB at h1 h2 ⊢
  by_cases hab : (unwrapKey x).kind = (unwrapKey y).kind <;>
    by_cases hbc : (unwrapKey y).kind = (unwrapKey z).kind
  · have hac : (unwrapKey x).kind = (unwrapKey z).kind := hab.trans hbc
    rw [if_neg (by simp [hab])] at h1
    rw [if_neg (by simp [hbc])] at h2
    rw [if_neg (by simp [hac])]
    rw [← hab] at h2
    exact valueLess_trans _ _ _ _ h1 h2
  · have hac : ¬((unwrapKey x).kind = (unwrapKey z).kind) := fun hh =>
      hbc (hab.symm.trans hh)
    rw [if_pos (by simp [hbc])] at h2
    rw [if_pos (by simp [hac])]
    simp only [decide_eq_true_eq] at h2 ⊢
    rw [hab]
    exact h2
  · have hac : ¬((unwrapKey x).kind = (unwrapKey z).kind) := fun hh =>
      hab (hh.trans hbc.symm)
    rw [if_pos (by simp [hab])] at h1
    rw [if_pos (by simp [hac])]
    simp only [decide_eq_true_eq] at h1 ⊢
    rw [← hbc]
    exact h1
  · rw [if_pos (by simp [hab])] at h1
    rw [if_pos (by simp [hbc])] at h2
    simp only [decide_eq_true_eq] at h1 h2
    by_cases hac : (unwrapKey x).kind = (unwrapKey z).kind
    · rw [hac] at h1
      omega
    · rw [if_pos (by simp [hac])]
      simp only [decide_eq_true_eq]
      omega

/-- `beqRV` is symmetric (a consequence of soundness and reflexivity). -/
theorem beqRV_symm (a b : RValue) : beqRV a b = beqRV b a := by
  cases h1 : beqRV a b
  · cases h2 : beqRV b a
    · rfl
    · have hba := beqRV_sound h2
      subst hba
      simp [beqRV_refl] at h1
  · have hab := beqRV_sound h1
    subst hab
    rw [beqRV_refl]

/-- `find?` only depends on the order of elements when two distinct
elements can satisfy the predicate. -/
theorem find?_congr_of_perm {α : Type} {p : α → Bool} :
    ∀ {l1 l2 : List α}, List.Perm l1 l2 →
      (∀ a ∈ l1, ∀ b ∈ l1, p a = true → p b = true → a = b) →
      l1.find? p = l2.find? p := by
  intro l1 l2 hperm
  induction hperm with
  | nil => intro _; rfl
  | cons x h ih =>
      intro huniq
      simp only [List.find?]
      cases hx : p x
      · exact ih (fun a ha b hb hpa hpb =>
          huniq a (by simp [ha]) b (by simp [hb]) hpa hpb)
      · rfl
  | swap x y l =>
      intro huniq
      simp only [List.find?]
      cases hx : p x <;> cases hy : p y <;> try rfl
      have := huniq y (by simp) x (by simp) hy hx
      rw [this]
  | trans h1 h2 ih1 ih2 =>
      intro huniq
      refine (ih1 huniq).trans (ih2 ?_)
      intro a ha b hb hpa hpb
      exact huniq a (h1.mem_iff.mpr ha) b (h1.mem_iff.mpr hb) hpa hpb

/-- `MapIndex` is storage-order independent on maps with pairwise
distinct keys. -/
theorem mapIndex_congr {pairs1 pairs2 : List (RValue × RValue)}
    (hperm : List.Perm pairs1 pairs2)
    (hdist : pairs1.Pairwise (fun p q => beqRV p.1 q.1 = false))
    (k : RValue) : mapIndex pairs1 k = mapIndex pairs2 k := by
  have hsym : Symmetric
      (fun p q : RValue × RValue => beqRV p.1 q.1 = false) := by
    intro p q h
    rw [beqRV_symm]
    exact h
  have hforall := List.Pairwise.forall hsym hdist
  have huniq : ∀ p ∈ pairs1, ∀ q ∈ pairs1,
      (beqRV p.1 k) = true → (beqRV q.1 k) = true → p = q := by
    intro p hp q hq hpk hqk
    by_contra hne
    have hf : beqRV p.1 q.1 = false := hforall hp hq hne
    have hpq : p.1 = q.1 := (beqRV_sound hpk).trans (beqRV_sound hqk).symm
    rw [hpq, beqRV_refl] at hf
    exact absurd hf (by simp)
  unfold mapIndex
  rw [find?_congr_of_perm hperm huniq]

/-- The `formatMap` rendering loop restated over the plain sorted key
list. -/
theorem formatMapKeys_eq (pairs : List (RValue × RValue)) :
    ∀ (sorted : List {x : RValue // x ∈ pairs.map Prod.fst}) (depth : Nat),
      formatMapKeys pairs sorted depth =
        mapRenderLoop sorted.unattach pairs depth := by
  intro sorted
  induction sorted with
  | nil => intro depth; simp [formatMapKeys, mapRenderLoop]
  | cons kk rest ih =>
      intro depth
      obtain ⟨key, hkey⟩ := kk
      simp only [formatMapKeys, mapRenderLoop, formatAssociation,
        List.unattach_cons]
      rcases h1 : formatValue key depth with e | ks
      · simp [h1]
      · rcases h2 : formatValue (mapIndex pairs key) depth with e | vs
        · simp [h1, h2]
        · rcases h3 : formatMapKeys pairs rest depth with e | r
          · rw [ih] at h3
            simp [h1, h2, h3]
          · rw [ih] at h3
            simp [h1, h2, h3, String.append_assoc]

/-- A nonempty map below the ceiling renders through the sorted key
order and the plain rendering loop. -/
theorem formatMap_run {t : GoType} {pairs : List (RValue × RValue)}
    {depth : Nat} (hne : pairs ≠ []) (hd : depth < maximumDepth) :
    formatValue (.map t pairs) depth =
      match renderedKeyOrder pairs with
      | .error e => .error e
      | .ok keys => (do
          let body ← mapRenderLoop keys pairs (depth + 1)
          Except.ok ("[" ++ body ++ formatNewline depth ++ "](" ++
            formatType t ++ ")")) := by
  have hlen : ¬(pairs.length = 0) := by simp [hne]
  simp only [formatValue, formatMap, renderedKeyOrder]
  rw [if_neg hlen, if_pos hd]
  rcases h : sliceStable (fun a b => keyLess a.val b.val)
      (pairs.map Prod.fst).attach with e | sorted
  · simp [h]
  · simp [h, formatMapKeys_eq]

/-- With orderable keys the sort cannot panic and returns the pure
stable sort of the stored key order. -/
theorem renderedKeyOrder_pure {pairs : List (RValue × RValue)}
    (ho : ∀ k ∈ pairs.map Prod.fst, orderableKind (unwrapKey k).kind = true) :
    renderedKeyOrder pairs =
      .ok (stableSortP keyLessB (pairs.map Prod.fst)) := by
  unfold renderedKeyOrder
  have H : ∀ a b : {x : RValue // x ∈ pairs.map Prod.fst},
      keyLess a.val b.val = .ok (keyLessB a.val b.val) := fun a b =>
    keyLess_eq_ok (ho _ a.property) (ho _ b.property)
  rw [sliceStable_pure H]
  have := stableSortP_map (Subtype.val
    (p := fun x : RValue => x ∈ pairs.map Prod.fst)) keyLessB
    (pairs.map Prod.fst).attach
  rw [List.attach_map_subtype_val] at this
  simp [this]

/-- On the kinds the sorter can order, the spec's `TypeRank` table is the
source's `typeMap` table. -/
theorem specRank_eq_typeMap :
    ∀ k : Kind, orderableKind k = true → specRank k = typeMap k := by
  decide

/-- On orderable kinds the spec's rank table is injective. -/
theorem specRank_inj : ∀ k1 k2 : Kind, orderableKind k1 = true →
    orderableKind k2 = true → specRank k1 = specRank k2 → k1 = k2 := by
  decide

/-- On orderable kinds the spec's within-rank value rules coincide with
the source's value switch. -/
theorem valueLess_eq_specValueLess (k : Kind) (_h : orderableKind k = true)
    (a b : RValue) : valueLess k a b = specValueLess k a b := by
  cases k <;> rfl

/-- On orderable keys the source's comparator is exactly the ordering
the spec describes. -/
theorem keyLessB_eq_specLess {x y : RValue}
    (hx : orderableKind (unwrapKey x).kind = true)
    (hy : orderableKind (unwrapKey y).kind = true) :
    keyLessB x y = specLess x y := by
  unfold keyLessB specLess
  by_cases hk : (unwrapKey x).kind = (unwrapKey y).kind
  · have hr : specRank (unwrapKey x).kind = specRank (unwrapKey y).kind := by
      rw [hk]
    rw [if_neg (by simp [hk]), if_neg (by simp [hr])]
    exact valueLess_eq_specValueLess _ hx _ _
  · have hr : ¬(specRank (unwrapKey x).kind = specRank (unwrapKey y).kind) :=
      fun hh => hk (specRank_inj _ _ hx hy hh)
    rw [if_pos (by simp [hk]), if_pos (by simp [hr])]
    rw [specRank_eq_typeMap _ hx, specRank_eq_typeMap _ hy]

/-- Every digit `strconv.FormatUint(v, 16)` produces is a lowercase
hexadecimal digit. -/
theorem hexDigits_chars :
    ∀ n : Nat, ∀ c ∈ hexDigits n, c ∈ "0123456789abcdef".toList := by
  intro n
  induction n using Nat.strong_induction_on with
  | _ n ih =>
    rw [hexDigits]
    by_cases h : n < 16
    · simp only [h, if_true, ite_true, List.mem_singleton]
      intro c hc
      subst hc
      interval_cases n <;> decide
    · simp only [h, if_false, ite_false, List.mem_append,
        List.mem_singleton]
      intro c hc
      rcases hc with hc | hc
      · exact ih (n / 16) (Nat.div_lt_self (by omega) (by omega)) c hc
      · subst hc
        have hm : n % 16 < 16 := Nat.mod_lt _ (by omega)
        generalize n % 16 = m at hm ⊢
        interval_cases m <;> decide

/-- `hexDigits` never produces the empty digit string. -/
theorem hexDigits_ne_nil (n : Nat) : hexDigits n ≠ [] := by
  rw [hexDigits]
  by_cases h : n < 16 <;> simp [h]

/-- The leading digit of a nonzero value is never `0`: the digit count is
determined by the value, with no padding. -/
theorem hexDigits_head :
    ∀ n : Nat, n ≠ 0 → ∀ c, (hexDigits n).head? = some c → c ≠ '0' := by
  intro n
  induction n using Nat.strong_induction_on with
  | _ n ih =>
    intro hn c hc
    rw [hexDigits] at hc
    by_cases h : n < 16
    · simp only [h, if_true, ite_true, List.head?] at hc
      have : c = hexDigit n := by simpa using hc.symm
      subst this
      interval_cases n <;> simp_all <;> decide
    · simp only [h, if_false, ite_false] at hc
      rw [List.head?_append_of_ne_nil _ (hexDigits_ne_nil (n / 16))] at hc
      exact ih (n / 16) (Nat.div_lt_self (by omega) (by omega)) (by omega)
        c hc

/-- Claim C6 (counterexample): unsigned rendering has no width-dependent
digit count — two `uint8` values render with different digit counts
(`0x5` and `0x10`), so the digit count is a function of the value, not
of the width. -/
theorem C6_counterexample :
    format (.unsigned .uint8 5) = .ok "0x5" ∧
    format (.unsigned .uint8 16) = .ok "0x10" ∧
    "0x5".length ≠ "0x10".length := by
  refine ⟨?_, ?_, by decide⟩
  · simp [format, formatValue, formatUnsigned]
    rw [hexDigits]
    norm_num [hexDigit]
    rfl
  · simp [format, formatValue, formatUnsigned]
    rw [hexDigits, hexDigits]
    norm_num [hexDigit]
    rfl

/-- Claim C6 (amended): every unsigned value renders as `0x` followed by
the minimal-length lowercase hexadecimal digits of its value (no
width-based padding: the leading digit of a nonzero value is never `0`),
and in particular `Format(uint8(16))` is `"0x10"`. -/
theorem C6_unsigned_hex :
    (∀ (k : UKind) (v d : Nat),
      formatValue (.unsigned k v) d = .ok ("0x" ++ String.mk (hexDigits v))) ∧
    (∀ v : Nat, ∀ c ∈ hexDigits v, c ∈ "0123456789abcdef".toList) ∧
    (∀ v : Nat, v ≠ 0 → ∀ c, (hexDigits v).head? = some c → c ≠ '0') ∧
    (∀ d : Nat, formatValue (.unsigned .uint8 16) d = .ok "0x10") := by
  refine ⟨?_, hexDigits_chars, hexDigits_head, ?_⟩
  · intro k v d
    simp [formatValue, formatUnsigned]
  · intro d
    simp [formatValue, formatUnsigned]
    rw [hexDigits, hexDigits]
    norm_num [hexDigit]
    rfl

/-- Claim C6 witness: the amended theorem applied at `uint8(16)`. -/
theorem C6_witness :
    ('1' : Char) ≠ '0' ∧ formatValue (.unsigned .uint8 16) 0 = .ok "0x10" := by
  constructor
  · refine C6_unsigned_hex.2.2.1 16 (by decide) '1' ?_
    rw [hexDigits, hexDigits]
    norm_num [hexDigit]
    rfl
  · exact C6_unsigned_hex.2.2.2 0

/-- Claim C9 (confirmed): every `Int32` (rune) value renders as a
single-quoted character literal — `Format(int32(65))` is `'A'` — while
the other signed widths (`Int`, `Int8`, `Int16`, `Int64`) render in
base 10; `int64(65)` renders as `"65"`, not `'A'`. -/
theorem C9_rune_rendering :
    (∀ d, formatValue (.rune 65) d = .ok "'A'") ∧
    (∀ i d, formatValue (.rune i) d =
      .ok ("'" ++ escapedRune '\'' (runeOf i) ++ "'")) ∧
    (∀ (k : IKind) (i : Int) (d : Nat),
      formatValue (.integer k i) d = .ok (toString i)) ∧
    (∀ d, formatValue (.integer .int64 65) d = .ok "65") := by
  refine ⟨?_, ?_, ?_, ?_⟩
  · intro d
    simp [formatValue, formatRune, runeOf, escapedRune]
    rfl
  · intro i d
    simp [formatValue, formatRune]
  · intro k i d
    simp [formatValue, formatInteger]
  · intro d
    simp [formatValue, formatInteger]
    rfl

/-- Claim C2 (confirmed): the recursion ceiling is the fixed constant 8,
and once `depth` reaches it every composite category renders its body as
the literal `...` instead of recursing: nonempty arrays/slices, nonempty
maps (whose keys are then not even sorted), structs, class instances,
and the pointer association/sequence surfaces.  In the embedding every
value is finite and `formatValue` is total by construction; the ceiling
is what bounds the rendering of a cyclic heap in Go, which a shallow
embedding cannot represent directly. -/
theorem C2_depth_ceiling :
    maximumDepth = 8 ∧
    (∀ (t : GoType) (sl : Bool) (e : RValue) (es : List RValue) (d : Nat),
      maximumDepth ≤ d →
      formatValue (.array t sl (e :: es)) d =
        .ok ("[" ++ "..." ++ "](" ++ formatType t ++ ")")) ∧
    (∀ (t : GoType) (p : RValue × RValue) (ps : List (RValue × RValue))
      (d : Nat), maximumDepth ≤ d →
      formatValue (.map t (p :: ps)) d =
        .ok ("[" ++ "..." ++ "](" ++ formatType t ++ ")")) ∧
    (∀ (t : GoType) (fs : List (String × Bool × RValue)) (d : Nat),
      maximumDepth ≤ d →
      formatValue (.struct t fs) d =
        .ok ("[" ++ "..." ++ "](" ++ formatType t ++ ")")) ∧
    (∀ (ms : List GoMethod) (d : Nat), maximumDepth ≤ d →
      formatInstance ms d = .ok "...") ∧
    (∀ (t : GoType) (sl : Bool) (e : RValue) (es : List RValue) (d : Nat),
      maximumDepth ≤ d →
      formatSequence (.array t sl (e :: es)) d = .ok "..." ∧
      formatAssociations (.array t sl (e :: es)) d = .ok "...") := by
  refine ⟨rfl, ?_, ?_, ?_, ?_, ?_⟩
  · intro t sl e es d hd
    simp [formatValue, formatArray]
    omega
  · intro t p ps d hd
    simp [formatValue, formatMap]
    omega
  · intro t fs d hd
    simp [formatValue, formatStructure]
    omega
  · intro ms d hd
    simp [formatInstance]
    omega
  · intro t sl e es d hd
    constructor
    · simp [formatSequence]
      omega
    · simp [formatAssociations]
      omega

/-- Claim C2 witness: at depth 8 a nonempty map truncates to `...`
(even though its key is a value the sorter could not order). -/
theorem C2_witness :
    formatValue (.map (.map .unsafePtr (.named "int"))
      [(.unsafePointer, .integer .int 1)]) 8 =
      .ok ("[" ++ "..." ++ "](" ++ formatType (.map .unsafePtr (.named "int")) ++ ")") :=
  C2_depth_ceiling.2.2.1 (.map .unsafePtr (.named "int"))
    (.unsafePointer, .integer .int 1) [] 8 (by decide)

/-- Inversion for a successful bind. -/
theorem bind_eq_ok {α β : Type} {X : Except GoPanic α}
    {f : α → Except GoPanic β} {s : β} (h : (X >>= f) = .ok s) :
    ∃ a, X = .ok a ∧ f a = .ok s := by
  rcases X with e | a
  · simp at h
  · exact ⟨a, rfl, by simpa using h⟩

/-- Claim C7 (counterexample): a pointer whose referent exposes no
surface at all still renders with the `&` reference marker —
`Format(&five)` is `"&[5](*int)"` — contradicting the claim that the
marker appears only when a surface is exposed. -/
theorem C7_counterexample :
    format (.pointer (.ptr (.named "int")) [] (.integer .int 5)) =
      .ok "&[5](*int)" ∧
    "&[5](*int)".toList.head? = some '&' := by
  constructor
  · simp [format, formatValue, formatPointer, methodByName, formatType,
      formatInteger]
    rfl
  · decide

/-- Claim C7 (amended): a pointer with no methods dereferences once and
renders the target, but the rendering is always wrapped in the `&[`
reference marker and the `](type)` annotation — for every pointer, with
or without a surface. -/
theorem C7_pointer_marker :
    (∀ (t : GoType) (elem : RValue) (d : Nat),
      formatValue (.pointer t [] elem) d =
        (formatValue elem d).map
          (fun s => "&[" ++ s ++ "](" ++ formatType t ++ ")")) ∧
    (∀ (t : GoType) (ms : List GoMethod) (elem : RValue) (d : Nat)
      (s : String), formatValue (.pointer t ms elem) d = .ok s →
      ∃ inner, s = "&[" ++ inner ++ "](" ++ formatType t ++ ")") := by
  constructor
  · intro t elem d
    rcases h : formatValue elem d with e | s <;>
      simp [formatValue, formatPointer, methodByName, List.find?, h,
        Except.map]
  · intro t ms elem d s h
    simp only [formatValue, formatPointer] at h
    split at h <;> try split at h
    all_goals try split at h
    all_goals
      first
        | simp at h
        | (obtain ⟨inner, _, hf⟩ := bind_eq_ok h
           refine ⟨inner, ?_⟩
           simp at hf
           exact hf.symm)

/-- Claim C7 witness: the amended theorem applied to `&five`. -/
theorem C7_witness :
    ∃ inner, "&[5](*int)" =
      "&[" ++ inner ++ "](" ++ formatType (.ptr (.named "int")) ++ ")" := by
  refine C7_pointer_marker.2 (.ptr (.named "int")) [] (.integer .int 5) 0
    "&[5](*int)" ?_
  simp [formatValue, formatPointer, methodByName, List.find?, formatType,
    formatInteger]
  rfl

/-- Claim C3 (counterexample): a pointer exposing both a `GetKeys`
(associations) capability and an `AsArray` (sequence) capability renders
the associations surface, not the sequence surface the claim predicts:
the two renderings differ on a concrete catalog value. -/
theorem C3_counterexample :
    format (.pointer (.ptr (.named "Catalog"))
      [.mk "GetKeys" 0 1 (.named "Sequence") .invalid,
       .mk "AsArray" 0 1 (.array (.iface none))
        (.array (.array (.iface none)) true
          [.pointer (.ptr (.named "Association"))
            [.mk "GetKey" 0 1 (.named "string") (.string "b"),
             .mk "GetValue" 0 1 (.named "int") (.integer .int 2)]
            .invalid])] .invalid) =
      .ok "&[\n    \"b\": 2\n](*Catalog)" ∧
    (do
      let body ← formatSequence (.array (.array (.iface none)) true
        [.pointer (.ptr (.named "Association"))
          [.mk "GetKey" 0 1 (.named "string") (.string "b"),
           .mk "GetValue" 0 1 (.named "int") (.integer .int 2)]
          .invalid]) 0
      Except.ok ("&[" ++ body ++ "](" ++
        formatType (.ptr (.named "Catalog")) ++ ")")) =
      .ok "&[\n    &[\n        Key: \"b\"\n        Value: 2\n    ](*Association)\n](*Catalog)" ∧
    ("&[\n    \"b\": 2\n](*Catalog)" : String) ≠
      "&[\n    &[\n        Key: \"b\"\n        Value: 2\n    ](*Association)\n](*Catalog)" := by
  refine ⟨?_, ?_, by decide⟩
  · simp [format, formatValue, formatPointer, formatAssociations,
      formatAssociationsElems, methodByName, RValue.methodByName,
      List.find?, GoMethod.name, GoMethod.result, formatType,
      formatNewline, formatString, formatInteger, escapedRune,
      maximumDepth]
    rfl
  · simp [formatSequence, formatSequenceElems, formatValue, formatPointer,
      formatInstance, formatInstanceMethods, methodByName,
      RValue.methodByName, List.find?, GoMethod.name, GoMethod.numIn,
      GoMethod.numOut, GoMethod.result, GoMethod.outType, formatType,
      formatNewline, formatString, formatInteger, escapedRune,
      maximumDepth, goStringStartsWith, List.isPrefixOf]
    rfl

/-- Claim C3 (amended): the Reference dispatch probes in the source's
order — `GetKeys` (associations, fetched through `AsArray`) first, then
`AsArray` (sequence), then a nonempty method set rendered as a class
instance, then plain dereference; a pointer exposing both an
associations accessor and a sequence accessor renders the associations
surface. -/
theorem C3_dispatch_order :
    (∀ (t : GoType) (ms : List GoMethod) (elem : RValue) (d : Nat)
      (m : GoMethod), (methodByName ms "GetKeys").isSome = true →
      methodByName ms "AsArray" = some m →
      formatValue (.pointer t ms elem) d =
        (do
          let body ← formatAssociations m.result d
          Except.ok ("&[" ++ body ++ "](" ++ formatType t ++ ")"))) ∧
    (∀ (t : GoType) (ms : List GoMethod) (elem : RValue) (d : Nat)
      (m : GoMethod), (methodByName ms "GetKeys").isSome = false →
      methodByName ms "AsArray" = some m →
      formatValue (.pointer t ms elem) d =
        (do
          let body ← formatSequence m.result d
          Except.ok ("&[" ++ body ++ "](" ++ formatType t ++ ")"))) ∧
    (∀ (t : GoType) (ms : List GoMethod) (elem : RValue) (d : Nat),
      (methodByName ms "GetKeys").isSome = false →
      methodByName ms "AsArray" = none → 0 < ms.length →
      formatValue (.pointer t ms elem) d =
        (do
          let body ← formatInstance ms d
          Except.ok ("&[" ++ body ++ "](" ++ formatType t ++ ")"))) ∧
    (∀ (t : GoType) (ms : List GoMethod) (elem : RValue) (d : Nat),
      (methodByName ms "GetKeys").isSome = false →
      methodByName ms "AsArray" = none → ms.length = 0 →
      formatValue (.pointer t ms elem) d =
        (do
          let body ← formatValue elem d
          Except.ok ("&[" ++ body ++ "](" ++ formatType t ++ ")"))) := by
  refine ⟨?_, ?_, ?_, ?_⟩
  · intro t ms elem d m hgk haa
    simp only [formatValue, formatPointer, hgk, ite_true, if_true]
    split
    next m2 hm2 =>
      rw [haa] at hm2
      injection hm2 with he
      subst he
      rfl
    next hm2 =>
      rw [haa] at hm2
      simp at hm2
  · intro t ms elem d m hgk haa
    simp only [formatValue, formatPointer, hgk, Bool.false_eq_true,
      ite_false, if_false]
    split
    next m2 hm2 =>
      rw [haa] at hm2
      injection hm2 with he
      subst he
      rfl
    next hm2 =>
      rw [haa] at hm2
      simp at hm2
  · intro t ms elem d hgk haa hlen
    simp only [formatValue, formatPointer, hgk, Bool.false_eq_true,
      ite_false, if_false]
    split
    next m2 hm2 =>
      rw [haa] at hm2
      simp at hm2
    next hm2 =>
      rw [if_pos (by omega : 0 < ms.length)]
  · intro t ms elem d hgk haa hlen
    simp only [formatValue, formatPointer, hgk, Bool.false_eq_true,
      ite_false, if_false]
    split
    next m2 hm2 =>
      rw [haa] at hm2
      simp at hm2
    next hm2 =>
      rw [if_neg (by omega : ¬(0 < ms.length))]

/-- Claim C3 witness: the dispatch theorem applied to the two-capability
catalog value (the `GetKeys` branch fires). -/
theorem C3_witness :
    formatValue (.pointer (.ptr (.named "Catalog"))
      [.mk "GetKeys" 0 1 (.named "Sequence") .invalid,
       .mk "AsArray" 0 1 (.array (.iface none)) (.array (.array (.iface none)) true [])]
      .invalid) 0 =
      (do
        let body ← formatAssociations (.array (.array (.iface none)) true []) 0
        Except.ok ("&[" ++ body ++ "](" ++
          formatType (.ptr (.named "Catalog")) ++ ")")) := by
  refine C3_dispatch_order.1 (.ptr (.named "Catalog"))
    [.mk "GetKeys" 0 1 (.named "Sequence") .invalid,
     .mk "AsArray" 0 1 (.array (.iface none)) (.array (.array (.iface none)) true [])]
    .invalid 0
    (.mk "AsArray" 0 1 (.array (.iface none)) (.array (.array (.iface none)) true []))
    ?_ ?_
  · simp [methodByName, List.find?, GoMethod.name]
  · simp [methodByName, List.find?, GoMethod.name]

/-- Claim C10: when a pointer exposes a `GetKeys` associations surface,
the elements of the array its `AsArray` accessor returns are rendered in
exactly the accessor's order (the element list is passed to the plain
left-to-right loop with no sort applied), unlike the intrinsic-map path;
concretely, associations stored `"b"` before `"a"` render `"b"` first,
while an intrinsic map stored `"b"` before `"a"` renders the sorted order
`"a"` first. -/
theorem C10_associations_order :
    (∀ (t : GoType) (ms : List GoMethod) (elem : RValue) (d : Nat)
      (m : GoMethod) (et : GoType) (sl : Bool) (elems : List RValue),
      (methodByName ms "GetKeys").isSome = true →
      methodByName ms "AsArray" = some m →
      m.result = .array et sl elems → elems ≠ [] → d < maximumDepth →
      formatValue (.pointer t ms elem) d =
        (do
          let body ← formatAssociationsElems elems (d + 1)
          Except.ok ("&[" ++ body ++ formatNewline d ++ "](" ++
            formatType t ++ ")"))) ∧
    format (.pointer (.ptr (.named "Catalog"))
      [.mk "GetKeys" 0 1 (.named "Sequence") .invalid,
       .mk "AsArray" 0 1 (.array (.iface none))
        (.array (.array (.iface none)) true
          [.pointer (.ptr (.named "Association"))
            [.mk "GetKey" 0 1 (.named "string") (.string "b"),
             .mk "GetValue" 0 1 (.named "int") (.integer .int 2)]
            .invalid,
           .pointer (.ptr (.named "Association"))
            [.mk "GetKey" 0 1 (.named "string") (.string "a"),
             .mk "GetValue" 0 1 (.named "int") (.integer .int 1)]
            .invalid])] .invalid) =
      .ok "&[\n    \"b\": 2\n    \"a\": 1\n](*Catalog)" ∧
    format (.map (.map (.named "string") (.named "int"))
      [(.string "b", .integer .int 2), (.string "a", .integer .int 1)]) =
      .ok "[\n    \"a\": 1\n    \"b\": 2\n](map[string, int])" := by
  refine ⟨?_, ?_, ?_⟩
  · intro t ms elem d m et sl elems hgk haa hres hne hd
    simp only [formatValue, formatPointer, hgk, ite_true, if_true]
    split
    next m2 hm2 =>
      rw [haa] at hm2
      injection hm2 with he
      subst he
      rw [hres]
      simp only [formatAssociations]
      rw [if_neg (by simp [hne]), if_pos hd]
      rcases h : formatAssociationsElems elems (d + 1) with e | body
      · simp [h]
      · simp [h, String.append_assoc]
    next hm2 =>
      rw [haa] at hm2
      simp at hm2
  · simp [format, formatValue, formatPointer, formatAssociations,
      formatAssociationsElems, methodByName, RValue.methodByName,
      List.find?, GoMethod.name, GoMethod.result, formatType,
      formatNewline, formatString, formatInteger, escapedRune,
      maximumDepth]
    rfl
  · rw [format, formatMap_run (by simp) (by decide)]
    rw [renderedKeyOrder_pure (by
      intro k hk
      simp at hk
      rcases hk with h | h <;> subst h <;> rfl)]
    simp only [stableSortP, insertAllP, orderedInsertP, keyLessB,
      unwrapKey, RValue.kind, valueLess, RValue.strProj]
    norm_num
    simp [mapRenderLoop, formatAssociation, mapIndex, List.find?, beqRV,
      formatValue, formatString, formatInteger, escapedRune,
      formatNewline, formatType]
    rfl

/-- Claim C10 witness: the order-preservation equation applied to the
one-association catalog value. -/
theorem C10_witness :
    formatValue (.pointer (.ptr (.named "Catalog"))
      [.mk "GetKeys" 0 1 (.named "Sequence") .invalid,
       .mk "AsArray" 0 1 (.array (.iface none))
        (.array (.array (.iface none)) true
          [.pointer (.ptr (.named "Association"))
            [.mk "GetKey" 0 1 (.named "string") (.string "b"),
             .mk "GetValue" 0 1 (.named "int") (.integer .int 2)]
            .invalid])] .invalid) 0 =
      (do
        let body ← formatAssociationsElems
          [.pointer (.ptr (.named "Association"))
            [.mk "GetKey" 0 1 (.named "string") (.string "b"),
             .mk "GetValue" 0 1 (.named "int") (.integer .int 2)]
            .invalid] 1
        Except.ok ("&[" ++ body ++ formatNewline 0 ++ "](" ++
          formatType (.ptr (.named "Catalog")) ++ ")")) := by
  exact C10_associations_order.1 (.ptr (.named "Catalog"))
    [.mk "GetKeys" 0 1 (.named "Sequence") .invalid,
     .mk "AsArray" 0 1 (.array (.iface none))
      (.array (.array (.iface none)) true
        [.pointer (.ptr (.named "Association"))
          [.mk "GetKey" 0 1 (.named "string") (.string "b"),
           .mk "GetValue" 0 1 (.named "int") (.integer .int 2)]
          .invalid])] .invalid 0
    (.mk "AsArray" 0 1 (.array (.iface none))
      (.array (.array (.iface none)) true
        [.pointer (.ptr (.named "Association"))
          [.mk "GetKey" 0 1 (.named "string") (.string "b"),
           .mk "GetValue" 0 1 (.named "int") (.integer .int 2)]
          .invalid]))
    (.array (.iface none)) true
    [.pointer (.ptr (.named "Association"))
      [.mk "GetKey" 0 1 (.named "string") (.string "b"),
       .mk "GetValue" 0 1 (.named "int") (.integer .int 2)]
      .invalid]
    (by simp [methodByName, List.find?, GoMethod.name])
    (by simp [methodByName, List.find?, GoMethod.name])
    rfl (by simp) (by decide)

/-- When the two unwrapped keys share a kind the comparator's value
switch cannot order, the comparison panics with the first key's runtime
value (the `sorterUnknownKey` payload carries the whole `reflect.Value`,
hence its type). -/
theorem keyLess_error {x y : RValue}
    (hk : (unwrapKey x).kind = (unwrapKey y).kind)
    (ho : orderableKind (unwrapKey x).kind = false) :
    keyLess x y = .error (.sorterUnknownKey (unwrapKey x)) := by
  unfold keyLess
  rw [if_neg (by simp [hk])]
  cases hkx : (unwrapKey x).kind <;>
    first
      | rfl
      | (rw [hkx] at ho; simp [orderableKind] at ho)

/-- A nonempty map below the ceiling whose sort panics on the very first
comparison (`less(keys[1], keys[0])`) propagates that panic out of the
renderer. -/
theorem formatMap_error_second {t : GoType} {p0 p1 : RValue × RValue}
    {rest : List (RValue × RValue)} {d : Nat} {e : GoPanic}
    (hd : d < maximumDepth) (he : keyLess p1.1 p0.1 = .error e) :
    formatValue (.map t (p0 :: p1 :: rest)) d = .error e := by
  simp only [formatValue, formatMap]
  rw [if_neg (by simp), if_pos hd]
  have hs : sliceStable (fun a b => keyLess a.val b.val)
      (((p0 :: p1 :: rest).map Prod.fst)).attach = .error e := by
    rw [List.map_cons, List.map_cons, List.attach_cons, List.attach_cons,
      List.map_cons]
    exact sliceStable_error_second he
  rw [hs]

/-- Claim C4 (counterexample): a map containing an unorderable-kinded key
need not fail — a single-key map keyed by an opaque (`UnsafePointer`)
value renders successfully, because the sort never invokes the comparator
on a one-element slice.  The claim's "at least one key" quantification is
too strong: the panic needs two keys actually compared. -/
theorem C4_counterexample :
    format (.map (.map .unsafePtr (.named "bool"))
      [(.unsafePointer, .boolean true)]) =
      .ok "[\n    <unsafe>: true\n](map[<unsafe>, bool])" := by
  simp [format, formatValue, formatMap, sliceStable, insertAllM,
    orderedInsertM, List.attach_cons, formatMapKeys_eq, mapRenderLoop,
    List.unattach_cons, formatAssociation, mapIndex, List.find?,
    beqRV, formatUnsafeValue, formatBoolean, formatNewline, formatType,
    maximumDepth]
  rfl

/-- Claim C4 (amended): a map whose first two stored keys share an
unorderable unwrapped kind fails (below the depth ceiling) with the fatal
sorter error, whose payload is the runtime value (hence type) of the
*second* stored key — the first argument of the first comparison
`less(keys[1], keys[0])`; no key is silently omitted, but the failure
requires two keys to actually be compared, not merely one unorderable key
being present. -/
theorem C4_sorter_error (t : GoType) (p0 p1 : RValue × RValue)
    (rest : List (RValue × RValue)) (d : Nat)
    (hk : (unwrapKey p1.1).kind = (unwrapKey p0.1).kind)
    (ho : orderableKind (unwrapKey p1.1).kind = false)
    (hd : d < maximumDepth) :
    formatValue (.map t (p0 :: p1 :: rest)) d =
      .error (.sorterUnknownKey (unwrapKey p1.1)) :=
  formatMap_error_second hd (keyLess_error hk ho)

/-- Claim C4 witness: the sorter-error theorem applied to a two-key map
keyed by channels (an unorderable kind). -/
theorem C4_witness :
    formatValue (.map (.map (.chan .bothDir (.named "int")) (.named "bool"))
      [(.chan .bothDir (.named "int") 0 0, .boolean true),
       (.chan .bothDir (.named "int") 1 0, .boolean false)]) 0 =
      .error (.sorterUnknownKey (.chan .bothDir (.named "int") 1 0)) := by
  have h := C4_sorter_error (.map (.chan .bothDir (.named "int")) (.named "bool"))
    (.chan .bothDir (.named "int") 0 0, .boolean true)
    (.chan .bothDir (.named "int") 1 0, .boolean false)
    [] 0 rfl rfl (by decide)
  simpa [unwrapKey, RValue.kind] using h

/-- Claim C5: for a map whose keys (after one wrapper unwrap) all have
orderable kinds, the renderer's key order is a permutation of the stored
keys with no inversion under the spec's ordering `specLess` — keys group
by ascending `TypeRank` (`specRank`, proved equal to the source's
`typeMap` on orderable kinds) and keys sharing a rank order by the
per-kind value rules (`specValueLess`) — and the map renders exactly
that order through the plain rendering loop. -/
theorem C5_key_ordering (t : GoType) (pairs : List (RValue × RValue))
    (d : Nat)
    (ho : ∀ k ∈ pairs.map Prod.fst, orderableKind (unwrapKey k).kind = true)
    (hne : pairs ≠ []) (hd : d < maximumDepth) :
    ∃ sortedKeys : List RValue,
      renderedKeyOrder pairs = .ok sortedKeys ∧
      List.Perm sortedKeys (pairs.map Prod.fst) ∧
      sortedKeys.Pairwise (fun a b => specLess b a = false) ∧
      formatValue (.map t pairs) d =
        (do
          let body ← mapRenderLoop sortedKeys pairs (d + 1)
          Except.ok ("[" ++ body ++ formatNewline d ++ "](" ++
            formatType t ++ ")")) := by
  refine ⟨stableSortP keyLessB (pairs.map Prod.fst),
    renderedKeyOrder_pure ho, stableSortP_perm _ _, ?_, ?_⟩
  · have hperm : List.Perm (stableSortP keyLessB (pairs.map Prod.fst))
        (pairs.map Prod.fst) := stableSortP_perm _ _
    have hp := stableSortP_pairwise
      (fun a b c h1 h2 => keyLessB_trans a b c h1 h2)
      (fun a b h => keyLessB_asymm a b h) (pairs.map Prod.fst)
    refine hp.imp_of_mem ?_
    intro a b ha hb hab
    rw [← keyLessB_eq_specLess (ho b (hperm.mem_iff.mp hb))
      (ho a (hperm.mem_iff.mp ha))]
    exact hab
  · rw [formatMap_run hne hd, renderedKeyOrder_pure ho]

/-- Claim C5 witness: the ordering theorem applied to a two-key map with
mixed orderable kinds (a boolean key and a string key). -/
theorem C5_witness :
    ∃ sortedKeys : List RValue,
      renderedKeyOrder [((.string "b" : RValue), (.integer .int 2 : RValue)),
        ((.boolean true : RValue), (.integer .int 1 : RValue))] =
        .ok sortedKeys ∧
      List.Perm sortedKeys
        ([((.string "b" : RValue), (.integer .int 2 : RValue)),
          ((.boolean true : RValue), (.integer .int 1 : RValue))].map
            Prod.fst) ∧
      sortedKeys.Pairwise (fun a b => specLess b a = false) ∧
      formatValue (.map (GoType.map (.iface none) (.named "int"))
          [((.string "b" : RValue), (.integer .int 2 : RValue)),
           ((.boolean true : RValue), (.integer .int 1 : RValue))]) 0 =
        (do
          let body ← mapRenderLoop sortedKeys
            [((.string "b" : RValue), (.integer .int 2 : RValue)),
             ((.boolean true : RValue), (.integer .int 1 : RValue))] 1
          Except.ok ("[" ++ body ++ formatNewline 0 ++ "](" ++
            formatType (GoType.map (.iface none) (.named "int")) ++ ")")) := by
  exact C5_key_ordering (GoType.map (.iface none) (.named "int"))
    [((.string "b" : RValue), (.integer .int 2 : RValue)),
     ((.boolean true : RValue), (.integer .int 1 : RValue))] 0
    (by
      intro k hk
      simp at hk
      rcases hk with rfl | rfl <;> rfl)
    (by simp) (by decide)

/-- The rendering loop only consults the pair list through `MapIndex`,
so it is storage-order independent on distinct-keyed maps. -/
theorem mapRenderLoop_congr (keys : List RValue)
    {pairs1 pairs2 : List (RValue × RValue)}
    (hperm : List.Perm pairs1 pairs2)
    (hdist : pairs1.Pairwise (fun p q => beqRV p.1 q.1 = false)) (d : Nat) :
    mapRenderLoop keys pairs1 d = mapRenderLoop keys pairs2 d := by
  induction keys with
  | nil => rfl
  | cons key rest ih =>
      simp only [mapRenderLoop]
      rw [mapIndex_congr hperm hdist key, ih]

/-- Claim C1 (amended): rendering is storage-order independent for maps
whose keys are orderable, pairwise distinct, *and* pairwise untied under
the comparator: two permuted storages render byte-identically.  (The
untied hypothesis is necessary: see the counterexample, where two
distinct complex keys of equal magnitude tie and the stable sort
preserves the storage order.) -/
theorem C1_determinism (t : GoType) (pairs1 pairs2 : List (RValue × RValue))
    (d : Nat) (hperm : List.Perm pairs1 pairs2)
    (ho : ∀ k ∈ pairs1.map Prod.fst, orderableKind (unwrapKey k).kind = true)
    (hdist : pairs1.Pairwise (fun p q => beqRV p.1 q.1 = false))
    (huntied : ∀ a ∈ pairs1.map Prod.fst, ∀ b ∈ pairs1.map Prod.fst,
      a ≠ b → keyLessB a b = true ∨ keyLessB b a = true) :
    formatValue (.map t pairs1) d = formatValue (.map t pairs2) d := by
  by_cases hne : pairs1 = []
  · subst hne
    rw [hperm.symm.eq_nil]
  · have hne2 : pairs2 ≠ [] := by
      intro h2
      rw [h2] at hperm
      exact hne hperm.eq_nil
    by_cases hd : d < maximumDepth
    · have hoperm : List.Perm (pairs1.map Prod.fst) (pairs2.map Prod.fst) :=
        hperm.map _
      have ho2 : ∀ k ∈ pairs2.map Prod.fst,
          orderableKind (unwrapKey k).kind = true :=
        fun k hk => ho k (hoperm.mem_iff.mpr hk)
      rw [formatMap_run hne hd, formatMap_run hne2 hd,
        renderedKeyOrder_pure ho, renderedKeyOrder_pure ho2]
      have hpair1 := stableSortP_pairwise
        (fun a b c h1 h2 => keyLessB_trans a b c h1 h2)
        (fun a b h => keyLessB_asymm a b h) (pairs1.map Prod.fst)
      have hpair2 := stableSortP_pairwise
        (fun a b c h1 h2 => keyLessB_trans a b c h1 h2)
        (fun a b h => keyLessB_asymm a b h) (pairs2.map Prod.fst)
      have hsorted_eq : stableSortP keyLessB (pairs1.map Prod.fst) =
          stableSortP keyLessB (pairs2.map Prod.fst) := by
        refine eq_of_perm_of_pairwise_of_untied
          ((stableSortP_perm _ _).trans
            (hoperm.trans (stableSortP_perm _ _).symm))
          hpair1 hpair2 ?_
        intro a ha b hb hne'
        exact huntied a ((stableSortP_perm _ _).mem_iff.mp ha)
          b ((stableSortP_perm _ _).mem_iff.mp hb) hne'
      rw [← hsorted_eq]
      have hloop := mapRenderLoop_congr
        (stableSortP keyLessB (pairs1.map Prod.fst)) hperm hdist (d + 1)
      simp [hloop]
    · have hl : pairs2.length = pairs1.length := hperm.length_eq.symm
      simp only [formatValue, formatMap]
      rw [if_neg (by simp [hne]), if_neg hd,
        if_neg (by simp [List.length_eq_zero, hne2]), if_neg hd]

/-- Claim C1 witness: the determinism theorem applied to a two-key
integer map stored in both orders. -/
theorem C1_witness :
    formatValue (.map (GoType.map (.named "int") (.named "string"))
      [((.integer .int 1 : RValue), (.string "a" : RValue)),
       ((.integer .int 2 : RValue), (.string "b" : RValue))]) 0 =
    formatValue (.map (GoType.map (.named "int") (.named "string"))
      [((.integer .int 2 : RValue), (.string "b" : RValue)),
       ((.integer .int 1 : RValue), (.string "a" : RValue))]) 0 := by
  refine C1_determinism (GoType.map (.named "int") (.named "string"))
    [((.integer .int 1 : RValue), (.string "a" : RValue)),
     ((.integer .int 2 : RValue), (.string "b" : RValue))]
    [((.integer .int 2 : RValue), (.string "b" : RValue)),
     ((.integer .int 1 : RValue), (.string "a" : RValue))] 0
    (List.Perm.swap _ _ _) ?_ ?_ ?_
  · intro k hk
    simp at hk
    rcases hk with rfl | rfl <;> rfl
  · simp [List.pairwise_cons, beqRV]
  · intro a ha b hb hne
    simp at ha hb
    rcases ha with rfl | rfl <;> rcases hb with rfl | rfl
    · exact absurd rfl hne
    · left; rfl
    · right; rfl
    · exact absurd rfl hne

/-- Claim C1 (counterexample): the invariant fails on complex keys of
equal magnitude.  `3+4i` and `4+3i` are distinct keys that tie under the
comparator (both magnitudes are 5), so the stable sort preserves the
storage order, and the two logically-equal (permuted) storages of the
same two-pair map render different byte strings. -/
theorem C1_counterexample :
    List.Perm
      [((.complex .complex128 3 4 : RValue), (.integer .int 1 : RValue)),
       ((.complex .complex128 4 3 : RValue), (.integer .int 2 : RValue))]
      [((.complex .complex128 4 3 : RValue), (.integer .int 2 : RValue)),
       ((.complex .complex128 3 4 : RValue), (.integer .int 1 : RValue))] ∧
    format (.map (GoType.map (.named "complex128") (.named "int"))
      [((.complex .complex128 3 4 : RValue), (.integer .int 1 : RValue)),
       ((.complex .complex128 4 3 : RValue), (.integer .int 2 : RValue))]) =
      .ok "[\n    (3+4i): 1\n    (4+3i): 2\n](map[complex128, int])" ∧
    format (.map (GoType.map (.named "complex128") (.named "int"))
      [((.complex .complex128 4 3 : RValue), (.integer .int 2 : RValue)),
       ((.complex .complex128 3 4 : RValue), (.integer .int 1 : RValue))]) =
      .ok "[\n    (4+3i): 2\n    (3+4i): 1\n](map[complex128, int])" ∧
    ("[\n    (3+4i): 1\n    (4+3i): 2\n](map[complex128, int])" : String) ≠
      "[\n    (4+3i): 2\n    (3+4i): 1\n](map[complex128, int])" := by
  have h12 : keyLessB (.complex .complex128 3 4)
      (.complex .complex128 4 3) = false := by
    simp [keyLessB, unwrapKey, RValue.kind, CKind.toKind, valueLess,
      RValue.ampSq]
    norm_num
  have h21 : keyLessB (.complex .complex128 4 3)
      (.complex .complex128 3 4) = false := by
    simp [keyLessB, unwrapKey, RValue.kind, CKind.toKind, valueLess,
      RValue.ampSq]
    norm_num
  have hb1 : ((3 : Rat) == 4) = false := rfl
  have hb2 : ((4 : Rat) == 3) = false := rfl
  have hb3 : ((3 : Rat) == 3) = true := rfl
  have hb4 : ((4 : Rat) == 4) = true := rfl
  refine ⟨List.Perm.swap _ _ _, ?_, ?_, by decide⟩
  · rw [format, formatMap_run (by simp) (by decide),
      renderedKeyOrder_pure (by
        intro k hk
        simp at hk
        rcases hk with rfl | rfl <;> rfl)]
    simp [stableSortP, insertAllP, orderedInsertP, h21]
    simp [mapRenderLoop, formatAssociation, mapIndex, List.find?, beqRV,
      hb1, hb2, hb3, hb4, formatValue, formatComplex, gFloat,
      formatInteger, formatNewline, formatType]
    rfl
  · rw [format, formatMap_run (by simp) (by decide),
      renderedKeyOrder_pure (by
        intro k hk
        simp at hk
        rcases hk with rfl | rfl <;> rfl)]
    simp [stableSortP, insertAllP, orderedInsertP, h12]
    simp [mapRenderLoop, formatAssociation, mapIndex, List.find?, beqRV,
      hb1, hb2, hb3, hb4, formatValue, formatComplex, gFloat,
      formatInteger, formatNewline, formatType]
    rfl

/-- A successful result is never the dispatch panic. -/
theorem noDispatchPanic_ok {α : Type} (a : α) :
    noDispatchPanic (.ok a : Except GoPanic α) := trivial

/-- Binding preserves freedom from the dispatch panic. -/
theorem noDispatchPanic_bind {α β : Type} {X : Except GoPanic α}
    {f : α → Except GoPanic β} (hX : noDispatchPanic X)
    (hf : ∀ a, noDispatchPanic (f a)) : noDispatchPanic (X >>= f) := by
  cases X with
  | error e =>
      rw [error_bind]
      cases e <;> first | trivial | exact hX
  | ok a => rw [ok_bind]; exact hf a

/-- The key comparator only panics with the sorter panic. -/
theorem keyLess_noDispatch (x y : RValue) :
    noDispatchPanic (keyLess x y) := by
  unfold keyLess
  dsimp only
  split
  · trivial
  · split <;> trivial

/-- The insertion step only panics where the comparator does. -/
theorem orderedInsertM_noDispatch {α : Type}
    {less : α → α → Except GoPanic Bool}
    (hless : ∀ a b, noDispatchPanic (less a b)) (y : α) :
    ∀ l : List α, noDispatchPanic (orderedInsertM less y l) := by
  intro l
  induction l with
  | nil => exact noDispatchPanic_ok _
  | cons x xs ih =>
      simp only [orderedInsertM]
      refine noDispatchPanic_bind (hless y x) ?_
      intro b
      cases b
      · exact noDispatchPanic_bind ih fun _ => noDispatchPanic_ok _
      · exact noDispatchPanic_ok _

/-- The insertion loop only panics where the comparator does. -/
theorem insertAllM_noDispatch {α : Type}
    {less : α → α → Except GoPanic Bool}
    (hless : ∀ a b, noDispatchPanic (less a b)) :
    ∀ xs sorted : List α, noDispatchPanic (insertAllM less xs sorted) := by
  intro xs
  induction xs with
  | nil => intro sorted; exact noDispatchPanic_ok _
  | cons x rest ih =>
      intro sorted
      simp only [insertAllM]
      exact noDispatchPanic_bind (orderedInsertM_noDispatch hless x sorted)
        fun sorted2 => ih sorted2

/-- The sort only panics where the comparator does. -/
theorem sliceStable_noDispatch {α : Type}
    {less : α → α → Except GoPanic Bool}
    (hless : ∀ a b, noDispatchPanic (less a b)) (xs : List α) :
    noDispatchPanic (sliceStable less xs) :=
  insertAllM_noDispatch hless xs []

/-- The array/slice element loop never produces the dispatch panic when
the elements themselves never do. -/
theorem formatArrayElems_noDispatch :
    ∀ (elems : List RValue) (d : Nat),
      (∀ v : RValue, sizeOf v < sizeOf elems → ∀ d' : Nat,
        noDispatchPanic (formatValue v d')) →
      noDispatchPanic (formatArrayElems elems d) := by
  intro elems
  induction elems with
  | nil =>
      intro d _
      simp only [formatArrayElems]
      exact noDispatchPanic_ok _
  | cons value rest ih =>
      intro d H
      have hcons : sizeOf (value :: rest) =
          1 + sizeOf value + sizeOf rest := by simp
      have hv := sizeOf_rvalue_pos value
      simp only [formatArrayElems]
      refine noDispatchPanic_bind (H value (by omega) d) fun s => ?_
      refine noDispatchPanic_bind
        (ih d fun v hv' d' => H v (by omega) d') fun r => ?_
      exact noDispatchPanic_ok _

/-- The sequence element loop never produces the dispatch panic when the
elements themselves never do. -/
theorem formatSequenceElems_noDispatch :
    ∀ (elems : List RValue) (d : Nat),
      (∀ v : RValue, sizeOf v < sizeOf elems → ∀ d' : Nat,
        noDispatchPanic (formatValue v d')) →
      noDispatchPanic (formatSequenceElems elems d) := by
  intro elems
  induction elems with
  | nil =>
      intro d _
      simp only [formatSequenceElems]
      exact noDispatchPanic_ok _
  | cons value rest ih =>
      intro d H
      have hcons : sizeOf (value :: rest) =
          1 + sizeOf value + sizeOf rest := by simp
      have hv := sizeOf_rvalue_pos value
      simp only [formatSequenceElems]
      refine noDispatchPanic_bind (H value (by omega) d) fun s => ?_
      refine noDispatchPanic_bind
        (ih d fun v hv' d' => H v (by omega) d') fun r => ?_
      exact noDispatchPanic_ok _

/-- The association element loop never produces the dispatch panic when
values below it never do (its own failures are reflection panics). -/
theorem formatAssociationsElems_noDispatch :
    ∀ (elems : List RValue) (d : Nat),
      (∀ v : RValue, sizeOf v < sizeOf elems → ∀ d' : Nat,
        noDispatchPanic (formatValue v d')) →
      noDispatchPanic (formatAssociationsElems elems d) := by
  intro elems
  induction elems with
  | nil =>
      intro d _
      simp only [formatAssociationsElems]
      exact noDispatchPanic_ok _
  | cons association rest ih =>
      intro d H
      have hcons : sizeOf (association :: rest) =
          1 + sizeOf association + sizeOf rest := by simp
      simp only [formatAssociationsElems]
      split
      · trivial
      next m1 hm1 =>
        split
        · trivial
        next m2 hm2 =>
          have h1 := sizeOf_methodResult_lt hm1
          have h2 := sizeOf_methodResult_lt hm2
          refine noDispatchPanic_bind (H m1.result (by omega) d) fun ks => ?_
          refine noDispatchPanic_bind (H m2.result (by omega) d) fun vs => ?_
          refine noDispatchPanic_bind
            (ih d fun v hv' d' => H v (by omega) d') fun r => ?_
          exact noDispatchPanic_ok _

/-- The sorted-key rendering loop never produces the dispatch panic when
values below the pair list never do. -/
theorem formatMapKeys_noDispatch (pairs : List (RValue × RValue)) :
    ∀ (sorted : List {x : RValue // x ∈ pairs.map Prod.fst}) (d : Nat),
      (∀ v : RValue, sizeOf v < sizeOf pairs → ∀ d' : Nat,
        noDispatchPanic (formatValue v d')) →
      noDispatchPanic (formatMapKeys pairs sorted d) := by
  intro sorted
  induction sorted with
  | nil =>
      intro d _
      simp only [formatMapKeys]
      exact noDispatchPanic_ok _
  | cons kk rest ih =>
      intro d H
      obtain ⟨key, hkey⟩ := kk
      have h1 : sizeOf key < sizeOf pairs := sizeOf_key_lt hkey
      have hne : pairs ≠ [] := by
        intro h
        rw [h] at hkey
        simp at hkey
      have h2 : sizeOf (mapIndex pairs key) < sizeOf pairs :=
        sizeOf_mapIndex_lt key hne
      simp only [formatMapKeys]
      refine noDispatchPanic_bind (H key h1 d) fun ks => ?_
      refine noDispatchPanic_bind (H (mapIndex pairs key) h2 d) fun vs => ?_
      refine noDispatchPanic_bind (ih d H) fun r => ?_
      exact noDispatchPanic_ok _

/-- The struct field loop never produces the dispatch panic when field
values never do. -/
theorem formatStructureFields_noDispatch :
    ∀ (fields : List (String × Bool × RValue)) (d : Nat),
      (∀ v : RValue, sizeOf v < sizeOf fields → ∀ d' : Nat,
        noDispatchPanic (formatValue v d')) →
      noDispatchPanic (formatStructureFields fields d) := by
  intro fields
  induction fields with
  | nil =>
      intro d _
      simp only [formatStructureFields]
      exact noDispatchPanic_ok _
  | cons f rest ih =>
      intro d H
      obtain ⟨name, exported, value⟩ := f
      have hcons : sizeOf ((name, exported, value) :: rest) =
          1 + (1 + sizeOf name + (1 + 1 + sizeOf value)) + sizeOf rest := by
        simp
      simp only [formatStructureFields, pure_eq_ok]
      split
      · refine noDispatchPanic_bind (H value (by omega) d) fun vs => ?_
        refine noDispatchPanic_bind
          (ih d fun v hv' d' => H v (by omega) d') fun r => ?_
        exact noDispatchPanic_ok _
      · refine noDispatchPanic_bind (noDispatchPanic_ok _) fun vs => ?_
        refine noDispatchPanic_bind
          (ih d fun v hv' d' => H v (by omega) d') fun r => ?_
        exact noDispatchPanic_ok _

/-- The accessor-method loop never produces the dispatch panic when
accessor results never do. -/
theorem formatInstanceMethods_noDispatch :
    ∀ (methods : List GoMethod) (d : Nat),
      (∀ v : RValue, sizeOf v < sizeOf methods → ∀ d' : Nat,
        noDispatchPanic (formatValue v d')) →
      noDispatchPanic (formatInstanceMethods methods d) := by
  intro methods
  induction methods with
  | nil =>
      intro d _
      simp only [formatInstanceMethods]
      exact noDispatchPanic_ok _
  | cons m rest ih =>
      intro d H
      have hcons : sizeOf (m :: rest) = 1 + sizeOf m + sizeOf rest := by simp
      have hres := sizeOf_result_lt m
      simp only [formatInstanceMethods, pure_eq_ok]
      split
      · split
        · refine noDispatchPanic_bind (noDispatchPanic_ok _) fun y => ?_
          refine noDispatchPanic_bind (noDispatchPanic_ok _) fun y2 => ?_
          refine noDispatchPanic_bind
            (ih d fun v hv' d' => H v (by omega) d') fun r => ?_
          exact noDispatchPanic_ok _
        · refine noDispatchPanic_bind (H m.result (by omega) d) fun y => ?_
          refine noDispatchPanic_bind (noDispatchPanic_ok _) fun y2 => ?_
          refine noDispatchPanic_bind
            (ih d fun v hv' d' => H v (by omega) d') fun r => ?_
          exact noDispatchPanic_ok _
      · refine noDispatchPanic_bind (noDispatchPanic_ok _) fun y => ?_
        refine noDispatchPanic_bind
          (ih d fun v hv' d' => H v (by omega) d') fun r => ?_
        exact noDispatchPanic_ok _

/-- `formatArray` never produces the dispatch panic when its elements
never do. -/
theorem formatArray_noDispatch (t : GoType) (sl : Bool)
    (elems : List RValue) (d : Nat)
    (H : ∀ v : RValue, sizeOf v < sizeOf elems → ∀ d' : Nat,
      noDispatchPanic (formatValue v d')) :
    noDispatchPanic (formatArray t sl elems d) := by
  simp only [formatArray, pure_eq_ok, ok_bind]
  split
  · exact noDispatchPanic_ok _
  · split
    · exact noDispatchPanic_bind (formatArrayElems_noDispatch elems (d + 1)
        fun v hv d' => H v hv d') fun b => noDispatchPanic_ok _
    · exact noDispatchPanic_ok _

/-- `formatSequence` never produces the dispatch panic when the values
below its argument never do. -/
theorem formatSequence_noDispatch (reflected : RValue) (d : Nat)
    (H : ∀ v : RValue, sizeOf v < sizeOf reflected → ∀ d' : Nat,
      noDispatchPanic (formatValue v d')) :
    noDispatchPanic (formatSequence reflected d) := by
  cases reflected
  case array t sl elems =>
    have hsz : sizeOf (RValue.array t sl elems) =
        1 + sizeOf t + 1 + sizeOf elems := by simp
    simp only [formatSequence]
    split
    · exact noDispatchPanic_ok _
    · split
      · refine noDispatchPanic_bind (formatSequenceElems_noDispatch elems
          (d + 1) fun v hv d' => H v (by omega) d') fun b => ?_
        exact noDispatchPanic_ok _
      · exact noDispatchPanic_ok _
  all_goals (simp only [formatSequence]; trivial)

/-- `formatAssociations` never produces the dispatch panic when the
values below its argument never do. -/
theorem formatAssociations_noDispatch (reflected : RValue) (d : Nat)
    (H : ∀ v : RValue, sizeOf v < sizeOf reflected → ∀ d' : Nat,
      noDispatchPanic (formatValue v d')) :
    noDispatchPanic (formatAssociations reflected d) := by
  cases reflected
  case array t sl elems =>
    have hsz : sizeOf (RValue.array t sl elems) =
        1 + sizeOf t + 1 + sizeOf elems := by simp
    simp only [formatAssociations]
    split
    · exact noDispatchPanic_ok _
    · split
      · refine noDispatchPanic_bind (formatAssociationsElems_noDispatch
          elems (d + 1) fun v hv d' => H v (by omega) d') fun b => ?_
        exact noDispatchPanic_ok _
      · exact noDispatchPanic_ok _
  all_goals (simp only [formatAssociations]; trivial)

/-- `formatMap` panics only with the sorter panic: it never produces the
dispatch panic when the values below its pair list never do. -/
theorem formatMap_noDispatch (t : GoType) (pairs : List (RValue × RValue))
    (d : Nat)
    (H : ∀ v : RValue, sizeOf v < sizeOf pairs → ∀ d' : Nat,
      noDispatchPanic (formatValue v d')) :
    noDispatchPanic (formatMap t pairs d) := by
  simp only [formatMap]
  split
  · exact noDispatchPanic_ok _
  · split
    · split
      next e heq =>
        have hs := sliceStable_noDispatch
          (fun a b => keyLess_noDispatch a.val b.val)
          (pairs.map Prod.fst).attach
        rw [heq] at hs
        cases e <;> first | trivial | exact hs.elim
      next sorted heq =>
        refine noDispatchPanic_bind (formatMapKeys_noDispatch pairs sorted
          (d + 1) H) fun b => ?_
        exact noDispatchPanic_ok _
    · exact noDispatchPanic_ok _

/-- `formatStructure` never produces the dispatch panic when its field
values never do. -/
theorem formatStructure_noDispatch (t : GoType)
    (fields : List (String × Bool × RValue)) (d : Nat)
    (H : ∀ v : RValue, sizeOf v < sizeOf fields → ∀ d' : Nat,
      noDispatchPanic (formatValue v d')) :
    noDispatchPanic (formatStructure t fields d) := by
  simp only [formatStructure, pure_eq_ok, ok_bind]
  split
  · exact noDispatchPanic_bind (formatStructureFields_noDispatch fields
      (d + 1) H) fun b => noDispatchPanic_ok _
  · exact noDispatchPanic_ok _

/-- `formatInstance` never produces the dispatch panic when its accessor
results never do. -/
theorem formatInstance_noDispatch (methods : List GoMethod) (d : Nat)
    (H : ∀ v : RValue, sizeOf v < sizeOf methods → ∀ d' : Nat,
      noDispatchPanic (formatValue v d')) :
    noDispatchPanic (formatInstance methods d) := by
  simp only [formatInstance]
  split
  · refine noDispatchPanic_bind (formatInstanceMethods_noDispatch methods
      (d + 1) H) fun b => ?_
    exact noDispatchPanic_ok _
  · exact noDispatchPanic_ok _

/-- `formatPointer` never produces the dispatch panic when the values
below its method set and referent never do. -/
theorem formatPointer_noDispatch (t : GoType) (methods : List GoMethod)
    (elem : RValue) (d : Nat)
    (H : ∀ v : RValue, sizeOf v < sizeOf methods + sizeOf elem →
      ∀ d' : Nat, noDispatchPanic (formatValue v d')) :
    noDispatchPanic (formatPointer t methods elem d) := by
  have helem := sizeOf_rvalue_pos elem
  have hms := sizeOf_list_pos methods
  simp only [formatPointer, pure_eq_ok, ok_bind, error_bind]
  split
  · split
    next m hm =>
      have h1 := List.sizeOf_lt_of_mem (methodByName_mem hm)
      have h2 := sizeOf_result_lt m
      exact noDispatchPanic_bind (formatAssociations_noDispatch m.result d
        fun v hv d' => H v (by omega) d') fun y => noDispatchPanic_ok _
    next hm => trivial
  · split
    next m hm =>
      have h1 := List.sizeOf_lt_of_mem (methodByName_mem hm)
      have h2 := sizeOf_result_lt m
      exact noDispatchPanic_bind (formatSequence_noDispatch m.result d
        fun v hv d' => H v (by omega) d') fun y => noDispatchPanic_ok _
    next hm =>
      split
      · exact noDispatchPanic_bind (formatInstance_noDispatch methods d
          fun v hv d' => H v (by omega) d') fun y => noDispatchPanic_ok _
      · exact noDispatchPanic_bind (H elem (by omega) d)
          fun y => noDispatchPanic_ok _

/-- The renderer never produces the dispatch panic, by strong induction
on the size of the value. -/
theorem formatValue_noDispatch : ∀ (n : Nat) (v : RValue) (d : Nat),
    sizeOf v ≤ n → noDispatchPanic (formatValue v d) := by
  intro n
  induction n using Nat.strong_induction_on with
  | _ n ih =>
    intro v d hsz
    cases v
    case array t sl elems =>
      have hc : sizeOf (RValue.array t sl elems) =
          1 + sizeOf t + 1 + sizeOf elems := by simp
      simp only [formatValue]
      refine formatArray_noDispatch t sl elems d ?_
      intro v' hv' d'
      exact ih (n - 1) (by omega) v' d' (by omega)
    case map t pairs =>
      have hc : sizeOf (RValue.map t pairs) =
          1 + sizeOf t + sizeOf pairs := by simp
      have ht : 0 < sizeOf t := by cases t <;> simp_arith
      simp only [formatValue]
      refine formatMap_noDispatch t pairs d ?_
      intro v' hv' d'
      exact ih (n - 1) (by omega) v' d' (by omega)
    case struct t fields =>
      have hc : sizeOf (RValue.struct t fields) =
          1 + sizeOf t + sizeOf fields := by simp
      have ht : 0 < sizeOf t := by cases t <;> simp_arith
      simp only [formatValue]
      refine formatStructure_noDispatch t fields d ?_
      intro v' hv' d'
      exact ih (n - 1) (by omega) v' d' (by omega)
    case pointer t methods elem =>
      have hc : sizeOf (RValue.pointer t methods elem) =
          1 + sizeOf t + sizeOf methods + sizeOf elem := by simp
      have ht : 0 < sizeOf t := by cases t <;> simp_arith
      simp only [formatValue]
      refine formatPointer_noDispatch t methods elem d ?_
      intro v' hv' d'
      exact ih (n - 1) (by omega) v' d' (by omega)
    case iface inner =>
      have hc : sizeOf (RValue.iface inner) = 1 + sizeOf inner := by simp
      simp only [formatValue, formatInterface]
      exact ih (n - 1) (by omega) inner d (by omega)
    all_goals (simp only [formatValue]; exact noDispatchPanic_ok _)

/-- Claim C8 (counterexample): `Format` is not total — a map keyed by two
channel values reaches the sorter's fatal panic.  Channels are comparable
in Go, so `map[chan string]int` is a legal map type and this value is
reachable in a real program; but `Chan` has no arm in the comparator's
value switch, so the first comparison panics.  A failure is therefore
reachable from ordinary values, not only from an internal defect. -/
theorem C8_counterexample :
    format (.map (GoType.map (.chan .bothDir (.named "string"))
        (.named "int"))
      [(.chan .bothDir (.named "string") 2 0, .integer .int 1),
       (.chan .bothDir (.named "string") 3 1, .integer .int 2)]) =
      .error (.sorterUnknownKey (.chan .bothDir (.named "string") 3 1)) := by
  have h := @formatMap_error_second
    (GoType.map (.chan .bothDir (.named "string")) (.named "int"))
    (.chan .bothDir (.named "string") 2 0, .integer .int 1)
    (.chan .bothDir (.named "string") 3 1, .integer .int 2) [] 0
    (.sorterUnknownKey (unwrapKey (.chan .bothDir (.named "string") 3 1)))
    (by decide) (keyLess_error rfl rfl)
  simpa [unwrapKey, RValue.kind, format] using h

/-- Claim C8 (amended): the dispatch itself is total — every kind of the
closed category set has an explicit arm (`kindHandled` is identically
true), the invalid value renders as `<nil>`, and no value can make the
renderer produce the `unsupportedKind` panic of the dispatch's `default`
branch; but `Format` as a whole is not total, because the sorter panic is
reachable (see the counterexample). -/
theorem C8_dispatch_total :
    (∀ k : Kind, kindHandled k = true) ∧
    format .invalid = .ok "<nil>" ∧
    (∀ (v : RValue) (d : Nat), noDispatchPanic (formatValue v d)) := by
  refine ⟨by decide, ?_, ?_⟩
  · simp [format, formatValue]
  · intro v d
    exact formatValue_noDispatch (sizeOf v) v d le_rfl
